import Mathlib

/-!
Shallow embedding of Luau's type-function reduction engine
(`Analysis/src/TypeFunction.cpp`) and proofs about its specified behavior.

Modelling conventions:
* Type nodes live in a single global store (`Heap`), addressed by `TypeId := Nat`;
  a node records its owning arena as a `Nat` identifier, mirroring
  `ty->owningArena` pointer comparisons.
* Feature flags that gate old/new behavior in the source are fixed to the new
  behavior (`LuauEagerGeneralization4`, `LuauStuckTypeFunctionsStillDispatch`,
  `LuauUserTypeFunctionAliases` all true), per the design note that the newer
  path is the intended one.
* External oracles (normalizer, subtyping, metamethod lookup, call solving, the
  sandboxed interpreter, the constraint solver's pending-query) are out of
  scope per the spec and appear as function-valued fields of a context record.
* Recursion that the C++ bounds by real-world invariants (bound-chain
  resolution, BFS with a seen set, union distribution) is bounded by explicit
  fuel parameters.
-/

namespace LuauTF

/-- Identity of a type node: an index into the global node store. -/
abbrev TypeId := Nat

/-- Identity of a type-pack node: an index into the global pack store. -/
abbrev TypePackId := Nat

/-- Tri-state recorded on a type-function instance (`TypeFunctionInstanceState`). -/
inductive TFState where
  | Unsolved
  | Solved
  | Stuck
deriving DecidableEq, Repr

/-- Status carried by a reduction result (`Reduction` in the source). -/
inductive Reduction where
  | MaybeOk
  | Irreducible
  | Erroneous
deriving DecidableEq, Repr

/-- Static descriptor of a type function (`TypeFunction`): its name and
whether it can operate over generic parameters. -/
structure TFDescr where
  name : String
  canReduceGenerics : Bool
deriving DecidableEq, Repr

/-- Primitive type tags relevant to the embedded builtins. -/
inductive PrimKind where
  | num
  | str
  | bool
  | nilk
deriving DecidableEq, Repr

/-- One type node of the shared graph.  `bound` models a node rebound to
another (`Unifiable.Bound`), `tfit` a `TypeFunctionInstanceType`.  Shapes the
claims never inspect are collapsed into `otherT`. -/
inductive TypeNode where
  | bound (target : TypeId)
  | prim (k : PrimKind)
  | never
  | anyT
  | errorT
  | unknownT
  | generic
  | blocked
  | pendingExpansion
  | union (parts : List TypeId)
  | inter (parts : List TypeId)
  | tfit (fn : TFDescr) (typeArgs : List TypeId) (packArgs : List TypePackId) (state : TFState)
  | externT
  | otherT
deriving DecidableEq, Repr

/-- One type-pack node.  `pfit` models `TypeFunctionInstanceTypePack`. -/
inductive PackNode where
  | boundP (target : TypePackId)
  | pfit (fn : TFDescr) (typeArgs : List TypeId) (packArgs : List TypePackId)
  | genericP
  | listP (tys : List TypeId)
  | otherP
deriving DecidableEq, Repr

/-- A stored type node together with its owning arena identifier. -/
structure HNode where
  owner : Nat
  node : TypeNode
deriving DecidableEq, Repr

/-- A stored pack node together with its owning arena identifier. -/
structure HPNode where
  owner : Nat
  node : PackNode
deriving DecidableEq, Repr

/-- The global type-node store. -/
abbrev Heap := List HNode

/-- The global pack-node store. -/
abbrev PHeap := List HPNode

/-- Read a type node. -/
def getNode (heap : Heap) (t : TypeId) : Option TypeNode :=
  (heap.get? t).map HNode.node

/-- Read a type node's owning arena. -/
def ownerAt (heap : Heap) (t : TypeId) : Option Nat :=
  (heap.get? t).map HNode.owner

/-- Read a pack node. -/
def getPNode (pheap : PHeap) (p : TypePackId) : Option PackNode :=
  (pheap.get? p).map HPNode.node

/-- Read a pack node's owning arena. -/
def pOwnerAt (pheap : PHeap) (p : TypePackId) : Option Nat :=
  (pheap.get? p).map HPNode.owner

/-- Overwrite the node stored at `t`, keeping its owner. -/
def setNode (heap : Heap) (t : TypeId) (n : TypeNode) : Heap :=
  match heap.get? t with
  | some h => heap.set t { h with node := n }
  | none => heap

/-- Overwrite the pack node stored at `p`, keeping its owner. -/
def setPNode (pheap : PHeap) (p : TypePackId) (n : PackNode) : PHeap :=
  match pheap.get? p with
  | some h => pheap.set p { h with node := n }
  | none => pheap

/-- Resolve a type through its chain of bound links (`follow`), with fuel. -/
def followN (heap : Heap) : Nat → TypeId → TypeId
  | 0, t => t
  | fuel + 1, t =>
    match getNode heap t with
    | some (.bound u) => followN heap fuel u
    | _ => t

/-- Resolve a type through bound links, with fuel fixed to the heap size
(bound chains in a well-formed arena are acyclic and shorter than the heap). -/
def followTy (heap : Heap) (t : TypeId) : TypeId :=
  followN heap heap.length t

/-- Resolve a pack through its chain of bound links, with fuel. -/
def followPN (pheap : PHeap) : Nat → TypePackId → TypePackId
  | 0, p => p
  | fuel + 1, p =>
    match getPNode pheap p with
    | some (.boundP q) => followPN pheap fuel q
    | _ => p

/-- Resolve a pack through bound links. -/
def followTp (pheap : PHeap) (p : TypePackId) : TypePackId :=
  followPN pheap pheap.length p

/-- State of a type-function instance node, when the node is one. -/
def stateAt (heap : Heap) (t : TypeId) : Option TFState :=
  match getNode heap t with
  | some (.tfit _ _ _ st) => some st
  | _ => none

/-- Whether a node is a `TypeFunctionInstanceType`. -/
def isTFITAt (heap : Heap) (t : TypeId) : Bool :=
  match getNode heap t with
  | some (.tfit _ _ _ _) => true
  | _ => false

/-- Whether a pack node is a `TypeFunctionInstanceTypePack`. -/
def isPfitAt (pheap : PHeap) (p : TypePackId) : Bool :=
  match getPNode pheap p with
  | some (.pfit _ _ _) => true
  | _ => false

/-- The `isPending` predicate (with `LuauStuckTypeFunctionsStillDispatch` on):
an unsolved function instance is pending; a blocked or pending-expansion node
is pending; otherwise the constraint solver's unresolved-constraint query
decides (`solverPending` models `solver && solver->hasUnresolvedConstraints`,
the constant-false function standing for a null solver). -/
def isPending (heap : Heap) (solverPending : TypeId → Bool) (t : TypeId) : Bool :=
  match getNode heap t with
  | some (.tfit _ _ _ .Unsolved) => true
  | some .blocked => true
  | some .pendingExpansion => true
  | _ => solverPending t

/-- Result of one reduction attempt (`TypeFunctionReductionResult`),
parameterized by the subject sort. -/
structure RR (α : Type) where
  result : Option α
  reductionStatus : Reduction
  blockedTypes : List TypeId
  blockedPacks : List TypePackId
  error : Option String := none
  messages : List String := []
deriving DecidableEq, Repr

/-- Outcome of a builtin reducer: either a reduction result, or an
internal-compiler-error raise (`ctx->ice->ice(...)`, which throws). -/
inductive ROutcome (α : Type) where
  | ice (msg : String)
  | res (r : RR α)
deriving DecidableEq, Repr

/-- Canonical singleton node identities provided by the builtin-type registry. -/
structure Builtins where
  numberTy : TypeId
  stringTy : TypeId
  booleanTy : TypeId
  nilTy : TypeId
  neverTy : TypeId
  anyTy : TypeId
  errorTy : TypeId
  unknownTy : TypeId
deriving DecidableEq, Repr

/-- View a followed node as a union's option list. -/
def unionParts (heap : Heap) (t : TypeId) : Option (List TypeId) :=
  match getNode heap t with
  | some (.union parts) => some parts
  | _ => none

/-! ## Union distribution (`tryDistributeTypeFunctionApp`) -/

/-- Outcome of the first scan of `tryDistributeTypeFunctionApp`: the scan
either trips the cartesian-product ceiling, finds the first union argument
(its index and options), or finds no union argument at all. -/
inductive ScanOut where
  | tooBig
  | found (idx : Nat) (options : List TypeId)
  | noUnion
deriving DecidableEq, Repr

/-- First loop of `tryDistributeTypeFunctionApp`: walk the arguments, record
the first union argument, accumulate the cartesian product of union sizes, and
bail out as soon as `limit <= cartesianProductSize`. -/
def scanUnions (heap : Heap) (limit : Nat) :
    List TypeId → Nat → Nat → Option (Nat × List TypeId) → ScanOut
  | [], _, _, first =>
    match first with
    | some (i, opts) => .found i opts
    | none => .noUnion
  | a :: rest, i, prod, first =>
    match unionParts heap (followTy heap a) with
    | none => scanUnions heap limit rest (i + 1) prod first
    | some opts =>
      let first' := if first.isSome then first else some (i, opts)
      let prod' := prod * opts.length
      if limit ≤ prod' then .tooBig
      else scanUnions heap limit rest (i + 1) prod' first'

/-- Second loop of `tryDistributeTypeFunctionApp`: run `f` once per option of
the first union, collecting blocked types and results, breaking on the first
non-`MaybeOk` status or missing result. Returns the final status, collected
blocked types and collected results, and the threaded heap. -/
def distributeLoop (f : TypeId → List TypeId → List TypePackId → Heap → RR TypeId × Heap)
    (instance_ : TypeId) (typeParams : List TypeId) (packParams : List TypePackId)
    (unionIndex : Nat) :
    List TypeId → Heap → Reduction → List TypeId → List TypeId →
    Reduction × List TypeId × List TypeId × Heap
  | [], heap, status, blocked, results => (status, blocked, results, heap)
  | option :: rest, heap, status, blocked, results =>
    let args := typeParams.set unionIndex option
    let (r, heap') := f instance_ args packParams heap
    let blocked' := blocked ++ r.blockedTypes
    let status' := if r.reductionStatus ≠ .MaybeOk then r.reductionStatus else status
    if status' ≠ .MaybeOk ∨ r.result.isNone then
      (status', blocked', results, heap')
    else
      distributeLoop f instance_ typeParams packParams unionIndex rest heap' status'
        blocked' (results ++ [r.result.getD 0])

/-- Descriptor of the variadic `union` builtin used for distributed results. -/
def unionFuncDescr : TFDescr := { name := "union", canReduceGenerics := true }

/-- Allocate a fresh node in the engine's arena, returning its identity. -/
def addType (heap : Heap) (arenaId : Nat) (n : TypeNode) : TypeId × Heap :=
  (heap.length, heap ++ [{ owner := arenaId, node := n }])

/-- The union-distribution helper `tryDistributeTypeFunctionApp`.  `none`
means "not distributing" (no union argument); `some r` is the distributed
reduction result.  `arenaId` is the engine's arena, used when allocating the
union-function instance that ties the branch results together. -/
def tryDistributeTypeFunctionApp
    (f : TypeId → List TypeId → List TypePackId → Heap → RR TypeId × Heap)
    (instance_ : TypeId) (typeParams : List TypeId) (packParams : List TypePackId)
    (heap : Heap) (limit : Nat) (arenaId : Nat) :
    Option (RR TypeId) × Heap :=
  match scanUnions heap limit typeParams 0 1 none with
  | .tooBig => (some { result := none, reductionStatus := .Erroneous, blockedTypes := [], blockedPacks := [] }, heap)
  | .noUnion => (none, heap)
  | .found unionIndex options =>
    let (status, blocked, results, heap') :=
      distributeLoop f instance_ typeParams packParams unionIndex options heap .MaybeOk [] []
    if status ≠ .MaybeOk ∨ blocked ≠ [] then
      (some { result := none, reductionStatus := status, blockedTypes := blocked, blockedPacks := [] }, heap')
    else
      match results with
      | [] => (none, heap')
      | [r] => (some { result := some r, reductionStatus := .MaybeOk, blockedTypes := [], blockedPacks := [] }, heap')
      | _ :: _ :: _ =>
        let (newId, heap'') := addType heap' arenaId (.tfit unionFuncDescr results [] .Unsolved)
        (some { result := some newId, reductionStatus := .MaybeOk, blockedTypes := [], blockedPacks := [] }, heap'')

/-- Option count contributed by one argument: the union's size when the
followed argument is a union, and 1 otherwise. -/
def unionFactor (heap : Heap) (a : TypeId) : Nat :=
  match unionParts heap (followTy heap a) with
  | some opts => opts.length
  | none => 1

/-- Product over the arguments of each union argument's option count
(non-union arguments contribute factor 1): the "cartesian product of the sizes
of the union arguments". -/
def unionSizesProd (heap : Heap) (args : List TypeId) : Nat :=
  (args.map (unionFactor heap)).prod

/-- Whether some argument resolves to a union type. -/
def hasUnionArg (heap : Heap) (args : List TypeId) : Bool :=
  args.any fun a => (unionParts heap (followTy heap a)).isSome

/-! ## Builtin function library -/

/-- Facts a builtin queries about a normalized type (`NormalizedType`
observations used by the numeric binops). -/
structure NormProps where
  shouldSuppressErrors : Bool
  isExactlyNumber : Bool
deriving DecidableEq, Repr

/-- Context for builtin reducers.  The normalizer, metamethod lookup and call
solving are external oracles per the spec's interface section; `solverPending`
models `solver && solver->hasUnresolvedConstraints`.  `solveCall mm args`
stands for `solveFunctionCall` followed by `extendTypePack(…, 1)`: it yields
the extracted head types of the call's return pack (the argument-pack
allocation happens inside that oracle boundary). -/
structure BCtx where
  arenaId : Nat
  builtins : Builtins
  solverPending : TypeId → Bool
  normalize : TypeId → Option NormProps
  findMetatableEntry : TypeId → String → Option TypeId
  solveCall : TypeId → List TypeId → Option (List TypeId)
  cartesianLimit : Nat

/-- Collapse an outcome into a bare reduction result for use inside union
distribution; the `ice` arm is unreachable there because distribution
preserves the argument structure that the arity guards check. -/
def runROutcome (o : ROutcome TypeId) : RR TypeId :=
  match o with
  | .res r => r
  | .ice _ => { result := none, reductionStatus := .Erroneous, blockedTypes := [], blockedPacks := [] }

/-- Whether a node is the `never` type. -/
def isNeverAt (heap : Heap) (t : TypeId) : Bool :=
  match getNode heap t with
  | some .never => true
  | _ => false

/-- The `not` type function (`notTypeFunction`): self-reference yields
`never`; a pending argument blocks; union arguments distribute; anything else
reduces to the boolean primitive.  `fuel` bounds the distribution recursion;
when it runs out distribution is skipped. -/
def notTypeFunctionN (ctx : BCtx) (fuel : Nat) (instance_ : TypeId) (typeParams : List TypeId)
    (packParams : List TypePackId) (heap : Heap) : ROutcome TypeId × Heap :=
  if typeParams.length ≠ 1 ∨ packParams ≠ [] then
    (.ice "not type function: encountered a type function instance without the required argument structure", heap)
  else
    let ty := followTy heap (typeParams.headD 0)
    if ty = instance_ then
      (.res { result := some ctx.builtins.neverTy, reductionStatus := .MaybeOk, blockedTypes := [], blockedPacks := [] }, heap)
    else if isPending heap ctx.solverPending ty then
      (.res { result := none, reductionStatus := .MaybeOk, blockedTypes := [ty], blockedPacks := [] }, heap)
    else
      match fuel with
      | 0 =>
        (.res { result := some ctx.builtins.booleanTy, reductionStatus := .MaybeOk, blockedTypes := [], blockedPacks := [] }, heap)
      | fuel' + 1 =>
        match tryDistributeTypeFunctionApp
            (fun i a p h =>
              let (o, h') := notTypeFunctionN ctx fuel' i a p h
              (runROutcome o, h'))
            instance_ typeParams packParams heap ctx.cartesianLimit ctx.arenaId with
        | (some r, heap') => (.res r, heap')
        | (none, heap') =>
          (.res { result := some ctx.builtins.booleanTy, reductionStatus := .MaybeOk, blockedTypes := [], blockedPacks := [] }, heap')

/-- Metamethod fallback tail shared by the numeric binops: try the left
operand's entry, then the right (tracking reversal), follow and pending-check
the metamethod, then solve the synthesized call. -/
def numericBinopMetamethod (ctx : BCtx) (metamethod : String) (lhsTy rhsTy : TypeId)
    (heap : Heap) : ROutcome TypeId × Heap :=
  match ctx.findMetatableEntry lhsTy metamethod, ctx.findMetatableEntry rhsTy metamethod with
  | none, none =>
    (.res { result := none, reductionStatus := .Erroneous, blockedTypes := [], blockedPacks := [] }, heap)
  | mmLeft, mmRight =>
    let reversed := mmLeft.isNone
    let mm := followTy heap ((mmLeft.orElse fun _ => mmRight).getD 0)
    if isPending heap ctx.solverPending mm then
      (.res { result := none, reductionStatus := .MaybeOk, blockedTypes := [mm], blockedPacks := [] }, heap)
    else
      let args := if reversed then [rhsTy, lhsTy] else [lhsTy, rhsTy]
      match ctx.solveCall mm args with
      | none =>
        (.res { result := none, reductionStatus := .Erroneous, blockedTypes := [], blockedPacks := [] }, heap)
      | some [] =>
        (.res { result := none, reductionStatus := .Erroneous, blockedTypes := [], blockedPacks := [] }, heap)
      | some (h :: _) =>
        (.res { result := some h, reductionStatus := .MaybeOk, blockedTypes := [], blockedPacks := [] }, heap)

/-- The shared skeleton of the binary arithmetic type functions
(`numericBinopTypeFunction`): self-reference guard, `never` short-circuit,
pending guards, normalization-based fast paths, union distribution, then
metamethod fallback. -/
def numericBinopN (ctx : BCtx) (fuel : Nat) (metamethod : String) (instance_ : TypeId)
    (typeParams : List TypeId) (packParams : List TypePackId) (heap : Heap) :
    ROutcome TypeId × Heap :=
  if typeParams.length ≠ 2 ∨ packParams ≠ [] then
    (.ice "encountered a type function instance without the required argument structure", heap)
  else
    let lhsTy := followTy heap (typeParams.headD 0)
    let rhsTy := followTy heap (typeParams.getD 1 0)
    if lhsTy = instance_ ∨ rhsTy = instance_ then
      (.res { result := some ctx.builtins.neverTy, reductionStatus := .MaybeOk, blockedTypes := [], blockedPacks := [] }, heap)
    else if isNeverAt heap lhsTy ∨ isNeverAt heap rhsTy then
      (.res { result := some ctx.builtins.neverTy, reductionStatus := .MaybeOk, blockedTypes := [], blockedPacks := [] }, heap)
    else if isPending heap ctx.solverPending lhsTy then
      (.res { result := none, reductionStatus := .MaybeOk, blockedTypes := [lhsTy], blockedPacks := [] }, heap)
    else if isPending heap ctx.solverPending rhsTy then
      (.res { result := none, reductionStatus := .MaybeOk, blockedTypes := [rhsTy], blockedPacks := [] }, heap)
    else
      match ctx.normalize lhsTy, ctx.normalize rhsTy with
      | none, _ =>
        (.res { result := none, reductionStatus := .MaybeOk, blockedTypes := [], blockedPacks := [] }, heap)
      | _, none =>
        (.res { result := none, reductionStatus := .MaybeOk, blockedTypes := [], blockedPacks := [] }, heap)
      | some normL, some normR =>
        if normL.shouldSuppressErrors ∨ normR.shouldSuppressErrors then
          (.res { result := some ctx.builtins.anyTy, reductionStatus := .MaybeOk, blockedTypes := [], blockedPacks := [] }, heap)
        else if normL.isExactlyNumber ∧ normR.isExactlyNumber then
          (.res { result := some ctx.builtins.numberTy, reductionStatus := .MaybeOk, blockedTypes := [], blockedPacks := [] }, heap)
        else
          match fuel with
          | 0 => numericBinopMetamethod ctx metamethod lhsTy rhsTy heap
          | fuel' + 1 =>
            match tryDistributeTypeFunctionApp
                (fun i a p h =>
                  let (o, h') := numericBinopN ctx fuel' metamethod i a p h
                  (runROutcome o, h'))
                instance_ typeParams packParams heap ctx.cartesianLimit ctx.arenaId with
            | (some r, heap') => (.res r, heap')
            | (none, heap') => numericBinopMetamethod ctx metamethod lhsTy rhsTy heap'

/-- The `add` type function: arity guard, then the shared numeric skeleton
with the `__add` metamethod. -/
def addTypeFunctionN (ctx : BCtx) (fuel : Nat) (instance_ : TypeId) (typeParams : List TypeId)
    (packParams : List TypePackId) (heap : Heap) : ROutcome TypeId × Heap :=
  if typeParams.length ≠ 2 ∨ packParams ≠ [] then
    (.ice "add type function: encountered a type function instance without the required argument structure", heap)
  else numericBinopN ctx fuel "__add" instance_ typeParams packParams heap

/-- The `sub` type function. -/
def subTypeFunctionN (ctx : BCtx) (fuel : Nat) (instance_ : TypeId) (typeParams : List TypeId)
    (packParams : List TypePackId) (heap : Heap) : ROutcome TypeId × Heap :=
  if typeParams.length ≠ 2 ∨ packParams ≠ [] then
    (.ice "sub type function: encountered a type function instance without the required argument structure", heap)
  else numericBinopN ctx fuel "__sub" instance_ typeParams packParams heap

/-- The `mul` type function. -/
def mulTypeFunctionN (ctx : BCtx) (fuel : Nat) (instance_ : TypeId) (typeParams : List TypeId)
    (packParams : List TypePackId) (heap : Heap) : ROutcome TypeId × Heap :=
  if typeParams.length ≠ 2 ∨ packParams ≠ [] then
    (.ice "mul type function: encountered a type function instance without the required argument structure", heap)
  else numericBinopN ctx fuel "__mul" instance_ typeParams packParams heap

/-- The `div` type function. -/
def divTypeFunctionN (ctx : BCtx) (fuel : Nat) (instance_ : TypeId) (typeParams : List TypeId)
    (packParams : List TypePackId) (heap : Heap) : ROutcome TypeId × Heap :=
  if typeParams.length ≠ 2 ∨ packParams ≠ [] then
    (.ice "div type function: encountered a type function instance without the required argument structure", heap)
  else numericBinopN ctx fuel "__div" instance_ typeParams packParams heap

/-- The `idiv` type function. -/
def idivTypeFunctionN (ctx : BCtx) (fuel : Nat) (instance_ : TypeId) (typeParams : List TypeId)
    (packParams : List TypePackId) (heap : Heap) : ROutcome TypeId × Heap :=
  if typeParams.length ≠ 2 ∨ packParams ≠ [] then
    (.ice "integer div type function: encountered a type function instance without the required argument structure", heap)
  else numericBinopN ctx fuel "__idiv" instance_ typeParams packParams heap

/-- The `pow` type function. -/
def powTypeFunctionN (ctx : BCtx) (fuel : Nat) (instance_ : TypeId) (typeParams : List TypeId)
    (packParams : List TypePackId) (heap : Heap) : ROutcome TypeId × Heap :=
  if typeParams.length ≠ 2 ∨ packParams ≠ [] then
    (.ice "pow type function: encountered a type function instance without the required argument structure", heap)
  else numericBinopN ctx fuel "__pow" instance_ typeParams packParams heap

/-- The `mod` type function. -/
def modTypeFunctionN (ctx : BCtx) (fuel : Nat) (instance_ : TypeId) (typeParams : List TypeId)
    (packParams : List TypePackId) (heap : Heap) : ROutcome TypeId × Heap :=
  if typeParams.length ≠ 2 ∨ packParams ≠ [] then
    (.ice "modulo type function: encountered a type function instance without the required argument structure", heap)
  else numericBinopN ctx fuel "__mod" instance_ typeParams packParams heap

/-! ## User-defined type function runtime bridge -/

/-- Per-instance data of a user-defined type function
(`TypeFunctionInstanceType::userFuncData` and its definition), reduced to the
observations the reducer makes of it. -/
structure UserFuncData where
  ownerExpired : Bool
  hasName : Bool
  hasDefinition : Bool
  defHasErrors : Bool
  envFunctionHasParseErrors : Bool
  envRegistrationFails : Bool
deriving DecidableEq, Repr

/-- Context for the user-defined type function reducer. `findBlockers` models
the `FindUserTypeFunctionBlockers` scan over the arguments and in-scope
aliases; `sandboxOutcome` stands for the whole sandboxed interpreter
invocation (serialization, `lua_pcall` with the interrupt hook, and
deserialization), which is a call boundary the spec leaves external. -/
structure UCtx where
  builtins : Builtins
  allowEvaluation : Bool
  stateMissing : Bool
  findBlockers : List TypeId → List TypeId
  sandboxOutcome : ROutcome TypeId

/-- The user-defined type function reducer (`userDefinedTypeFunction`):
internal-consistency guards, the disabled-or-parse-errors short-circuit, the
blocking scan, environment registration, then the sandbox call. -/
def userDefinedTypeFunction (ufd : UserFuncData) (typeParams : List TypeId) (ctx : UCtx) :
    ROutcome TypeId :=
  if ufd.ownerExpired then
    .ice "user-defined type function module has expired"
  else if ¬ufd.hasName ∨ ¬ufd.hasDefinition then
    .ice "all user-defined type functions must have an associated function definition"
  else if ¬ctx.allowEvaluation ∨ ufd.defHasErrors then
    .res { result := some ctx.builtins.errorTy, reductionStatus := .MaybeOk, blockedTypes := [], blockedPacks := [] }
  else
    match ctx.findBlockers typeParams with
    | blocker :: rest =>
      .res { result := none, reductionStatus := .MaybeOk, blockedTypes := blocker :: rest, blockedPacks := [] }
    | [] =>
      if ufd.envFunctionHasParseErrors then
        .res { result := some ctx.builtins.errorTy, reductionStatus := .MaybeOk, blockedTypes := [], blockedPacks := [] }
      else if ufd.envRegistrationFails then
        .ice "user-defined type function reference cannot be registered"
      else if ctx.stateMissing then
        .res { result := none, reductionStatus := .Erroneous, blockedTypes := [], blockedPacks := [],
               error := some "type function: cannot be evaluated in this context" }
      else ctx.sandboxOutcome

/-! ## Reduction scheduler (`TypeFunctionReducer`) -/

/-- Diagnostics accumulated in the run's result record (`TypeError` payloads
the engine emits). -/
inductive Err where
  | internal (msg : String)
  | userTFError (msg : String)
  | uninhabitedTF (t : TypeId)
  | uninhabitedTPF (p : TypePackId)
  | codeTooComplex
deriving DecidableEq, Repr

/-- The run's result record (`FunctionGraphReductionResult`). -/
structure FGRResult where
  reducedTypes : List TypeId
  reducedPacks : List TypePackId
  blockedTypes : List TypeId
  blockedPacks : List TypePackId
  irreducibleTypes : List TypeId
  errors : List Err
  messages : List Err
deriving DecidableEq, Repr

/-- The empty result record. -/
def emptyFGR : FGRResult :=
  { reducedTypes := [], reducedPacks := [], blockedTypes := [], blockedPacks := [],
    irreducibleTypes := [], errors := [], messages := [] }

/-- Scheduler context.  `hasUnscopedGeneric` models the
`UnscopedGenericFinder` scan, `guessTy`/`guessTp` the
`TypeFunctionReductionGuesser`, and `reduceTy`/`reduceTp` the per-function
reducer callbacks; reducers may allocate fresh nodes (returned as heap
extensions) but never mutate pre-existing nodes, matching the builtins. -/
structure SCtx where
  arenaId : Nat
  hasUnscopedGeneric : TypeId → Bool
  guessTy : TypeId → Option TypeId
  guessTp : TypePackId → Option TypePackId
  reduceTy : TypeId → List TypeId → List TypePackId → Heap → PHeap → RR TypeId × List HNode × List HPNode
  reduceTp : TypePackId → List TypeId → List TypePackId → Heap → PHeap → RR TypePackId × List HNode × List HPNode

/-- Mutable state of one reduction run (`TypeFunctionReducer`'s fields). -/
structure ReducerState where
  heap : Heap
  pheap : PHeap
  queuedTys : List TypeId
  queuedTps : List TypePackId
  shouldGuessT : List TypeId
  shouldGuessP : List TypePackId
  cyclics : List TypeId
  irredTys : List TypeId
  irredTps : List TypePackId
  result : FGRResult
  force : Bool

/-- Set-style insertion (`DenseHashSet::insert`): append if absent. -/
def insertList (l : List Nat) (x : Nat) : List Nat :=
  if x ∈ l then l else l ++ [x]

/-- Append one diagnostic to the result's error list. -/
def pushErr (s : ReducerState) (e : Err) : ReducerState :=
  { s with result := { s.result with errors := s.result.errors ++ [e] } }

/-- Append reducer messages to the result's message list. -/
def pushMsgs (s : ReducerState) (msgs : List String) : ReducerState :=
  { s with result := { s.result with messages := s.result.messages ++ msgs.map Err.userTFError } }

/-- Mark a type instance irreducible for this run. -/
def insertIrredTy (s : ReducerState) (t : TypeId) : ReducerState :=
  { s with irredTys := insertList s.irredTys t }

/-- Mark a pack instance irreducible for this run. -/
def insertIrredTp (s : ReducerState) (p : TypePackId) : ReducerState :=
  { s with irredTps := insertList s.irredTps p }

/-- Record a type instance as permanently irreducible for the caller. -/
def insertResultIrredTy (s : ReducerState) (t : TypeId) : ReducerState :=
  { s with result := { s.result with irreducibleTypes := insertList s.result.irreducibleTypes t } }

/-- Re-queue a deferred type subject at the back. -/
def pushQueueTy (s : ReducerState) (t : TypeId) : ReducerState :=
  { s with queuedTys := s.queuedTys ++ [t] }

/-- Re-queue a deferred pack subject at the back. -/
def pushQueueTp (s : ReducerState) (p : TypePackId) : ReducerState :=
  { s with queuedTps := s.queuedTps ++ [p] }

/-- Rebind a type node to its replacement (`TypeFunctionReducer::replace`):
a foreign-arena subject is left unchanged and an internal error is recorded;
otherwise the node becomes a bound link and is recorded as reduced. -/
def replaceTy (ctx : SCtx) (s : ReducerState) (subject replacement : TypeId) : ReducerState :=
  if ownerAt s.heap subject ≠ some ctx.arenaId then
    pushErr s (.internal "Attempting to modify a type function instance from another arena")
  else
    { s with heap := setNode s.heap subject (.bound replacement),
             result := { s.result with reducedTypes := insertList s.result.reducedTypes subject } }

/-- Rebind a pack node to its replacement. -/
def replaceTp (ctx : SCtx) (s : ReducerState) (subject replacement : TypePackId) : ReducerState :=
  if pOwnerAt s.pheap subject ≠ some ctx.arenaId then
    pushErr s (.internal "Attempting to modify a type function instance from another arena")
  else
    { s with pheap := setPNode s.pheap subject (.boundP replacement),
             result := { s.result with reducedPacks := insertList s.result.reducedPacks subject } }

/-- Read a type instance's tri-state (`getState`); `Unsolved` models the
assertion-backed default for non-instance nodes. -/
def getStateTy (heap : Heap) (t : TypeId) : TFState :=
  match getNode heap t with
  | some (.tfit _ _ _ st) => st
  | _ => .Unsolved

/-- Update a type instance's tri-state (`setState`): a subject owned by a
foreign arena is silently left unchanged (no diagnostic). -/
def setStateTy (ctx : SCtx) (s : ReducerState) (subject : TypeId) (st : TFState) : ReducerState :=
  if ownerAt s.heap subject ≠ some ctx.arenaId then s
  else
    match getNode s.heap subject with
    | some (.tfit fd args pargs _) =>
      { s with heap := setNode s.heap subject (.tfit fd args pargs st) }
    | _ => s

/-- Readiness classification of a dependency (`SkipTestResult`). -/
inductive SkipTestResult where
  | CyclicTypeFunction
  | Irreducible
  | Stuck
  | Generic
  | Defer
  | Okay
deriving DecidableEq, Repr

/-- BFS core of `testForSkippability` for types (eager-generalization
version): resolve through intersections until an interesting dependency is
found.  `fuel` bounds the search; the seen set cuts revisits. -/
def skipTestTyGo (s : ReducerState) : Nat → List TypeId → List TypeId → SkipTestResult
  | 0, _, _ => .Okay
  | _ + 1, [], _ => .Okay
  | fuel + 1, t :: queue, seen =>
    if t ∈ seen then skipTestTyGo s fuel queue seen
    else
      match getNode s.heap t with
      | some (.tfit _ _ _ st) =>
        if st = .Stuck then .Stuck
        else if st = .Solved then .Generic
        else if t ∈ s.cyclics then .CyclicTypeFunction
        else if t ∉ s.irredTys then .Defer
        else .Irreducible
      | some .generic => .Generic
      | some (.inter parts) =>
        skipTestTyGo s fuel (queue ++ parts.map (followTy s.heap)) (seen ++ [t])
      | _ => skipTestTyGo s fuel queue (seen ++ [t])

/-- Search fuel for `skipTestTyGo`, generous for any well-formed heap. -/
def skipFuel (heap : Heap) : Nat :=
  (heap.length + 2) * (heap.length + 2) * (heap.length + 2)

/-- Readiness test for a type dependency (`testForSkippability(TypeId)`). -/
def skipTestTy (s : ReducerState) (t : TypeId) : SkipTestResult :=
  skipTestTyGo s (skipFuel s.heap) [followTy s.heap t] []

/-- Readiness test for a pack dependency (`testForSkippability(TypePackId)`). -/
def skipTestTp (s : ReducerState) (p : TypePackId) : SkipTestResult :=
  let p' := followTp s.pheap p
  match getPNode s.pheap p' with
  | some (.pfit _ _ _) => if p' ∈ s.irredTps then .Irreducible else .Defer
  | some .genericP => .Generic
  | _ => .Okay

/-- First blocking classification among the type arguments: the readiness
loop of `testParameters` acts on the first argument classified `Stuck`,
`Irreducible`, `Generic` (for a function that cannot reduce generics) or
`Defer`, and skips the rest. -/
def firstBlockingTyArgs (s : ReducerState) (canRed : Bool) : List TypeId → Option SkipTestResult
  | [] => none
  | a :: rest =>
    match skipTestTy s a with
    | .Stuck => some .Stuck
    | .Irreducible => some .Irreducible
    | .Generic => if canRed then firstBlockingTyArgs s canRed rest else some .Generic
    | .Defer => some .Defer
    | _ => firstBlockingTyArgs s canRed rest

/-- First blocking classification among the pack arguments. -/
def firstBlockingTpArgs (s : ReducerState) (canRed : Bool) : List TypePackId → Option SkipTestResult
  | [] => none
  | a :: rest =>
    match skipTestTp s a with
    | .Irreducible => some .Irreducible
    | .Generic => if canRed then firstBlockingTpArgs s canRed rest else some .Generic
    | .Defer => some .Defer
    | _ => firstBlockingTpArgs s canRed rest

/-- Parameter test for a type subject (`testParameters` with `T = TypeId`):
the first non-ready argument determines the effect — a `Stuck` argument marks
the subject irreducible and stuck; an `Irreducible` argument marks it
irreducible; a blocking `Generic` argument marks it irreducible and solved;
`Defer` re-queues it at the back.  Pack-argument blockers mark it irreducible
without a state update. -/
def testParamsTy (ctx : SCtx) (s : ReducerState) (subject : TypeId) (fd : TFDescr)
    (args : List TypeId) (packArgs : List TypePackId) : Bool × ReducerState :=
  match firstBlockingTyArgs s fd.canReduceGenerics args with
  | some .Stuck => (false, setStateTy ctx (insertIrredTy s subject) subject .Stuck)
  | some .Irreducible => (false, insertIrredTy s subject)
  | some .Generic => (false, setStateTy ctx (insertIrredTy s subject) subject .Solved)
  | some .Defer => (false, pushQueueTy s subject)
  | some _ => (false, s)
  | none =>
    match firstBlockingTpArgs s fd.canReduceGenerics packArgs with
    | some .Irreducible => (false, insertIrredTy s subject)
    | some .Generic => (false, insertIrredTy s subject)
    | some .Defer => (false, pushQueueTy s subject)
    | some _ => (false, s)
    | none => (true, s)

/-- Parameter test for a pack subject (`testParameters` with `T =
TypePackId`): state updates are no-ops on packs, deferral re-queues on the
pack queue. -/
def testParamsTp (ctx : SCtx) (s : ReducerState) (subject : TypePackId) (fd : TFDescr)
    (args : List TypeId) (packArgs : List TypePackId) : Bool × ReducerState :=
  match firstBlockingTyArgs s fd.canReduceGenerics args with
  | some .Stuck => (false, insertIrredTp s subject)
  | some .Irreducible => (false, insertIrredTp s subject)
  | some .Generic => (false, insertIrredTp s subject)
  | some .Defer => (false, pushQueueTp s subject)
  | some _ => (false, s)
  | none =>
    match firstBlockingTpArgs s fd.canReduceGenerics packArgs with
    | some .Irreducible => (false, insertIrredTp s subject)
    | some .Generic => (false, insertIrredTp s subject)
    | some .Defer => (false, pushQueueTp s subject)
    | some _ => (false, s)
    | none => (true, s)

/-- Heuristic guessing for a type subject (`tryGuessing`). -/
def tryGuessingTy (ctx : SCtx) (s : ReducerState) (subject : TypeId) : Bool × ReducerState :=
  if subject ∈ s.shouldGuessT then
    match ctx.guessTy subject with
    | some g => (true, replaceTy ctx s subject g)
    | none => (false, s)
  else (false, s)

/-- Heuristic guessing for a pack subject. -/
def tryGuessingTp (ctx : SCtx) (s : ReducerState) (subject : TypePackId) : Bool × ReducerState :=
  if subject ∈ s.shouldGuessP then
    match ctx.guessTp subject with
    | some g => (true, replaceTp ctx s subject g)
    | none => (false, s)
  else (false, s)

/-- Push the reducer's optional error as a user-type-function diagnostic. -/
def handleErrPart (s : ReducerState) (e : Option String) : ReducerState :=
  match e with
  | some m => pushErr s (.userTFError m)
  | none => s

/-- Terminal tri-state update applied when a reduction is decisive (or
forced): an unsolved subject becomes `Stuck` for erroneous or forced-maybe
outcomes and `Solved` for irreducible outcomes. -/
def handleTerminal (ctx : SCtx) (s : ReducerState) (subject : TypeId) (status : Reduction) : ReducerState :=
  if getStateTy s.heap subject = .Unsolved then
    match status with
    | .Erroneous => setStateTy ctx s subject .Stuck
    | .Irreducible => setStateTy ctx s subject .Solved
    | .MaybeOk => setStateTy ctx s subject .Stuck
  else s

/-- Record the reducer's named blocking nodes into the result record. -/
def recordBlocked (s : ReducerState) (bt : List TypeId) (bp : List TypePackId) : ReducerState :=
  { s with result := { s.result with
      blockedTypes := bt.foldl insertList s.result.blockedTypes,
      blockedPacks := bp.foldl insertList s.result.blockedPacks } }

/-- Apply one reduction result to a type subject
(`handleTypeFunctionReduction` with `T = TypeId`): messages are recorded, a
concrete result is spliced in, otherwise the subject is marked irreducible
and either surfaced as uninhabited (with a terminal state) or its blockers
are recorded. -/
def handleTFRTy (ctx : SCtx) (s : ReducerState) (subject : TypeId) (r : RR TypeId) : ReducerState :=
  match r.result with
  | some repl => replaceTy ctx (pushMsgs s r.messages) subject repl
  | none =>
    if r.reductionStatus ≠ .MaybeOk ∨ s.force then
      pushErr
        (handleTerminal ctx
          (handleErrPart (insertIrredTy (pushMsgs s r.messages) subject) r.error)
          subject r.reductionStatus)
        (.uninhabitedTF subject)
    else
      recordBlocked (handleErrPart (insertIrredTy (pushMsgs s r.messages) subject) r.error)
        r.blockedTypes r.blockedPacks

/-- Apply one reduction result to a pack subject
(`handleTypeFunctionReduction` with `T = TypePackId`); tri-state updates are
no-ops on packs. -/
def handleTFRTp (ctx : SCtx) (s : ReducerState) (subject : TypePackId) (r : RR TypePackId) : ReducerState :=
  match r.result with
  | some repl => replaceTp ctx (pushMsgs s r.messages) subject repl
  | none =>
    if r.reductionStatus ≠ .MaybeOk ∨ s.force then
      pushErr (handleErrPart (insertIrredTp (pushMsgs s r.messages) subject) r.error)
        (.uninhabitedTPF subject)
    else
      recordBlocked (handleErrPart (insertIrredTp (pushMsgs s r.messages) subject) r.error)
        r.blockedTypes r.blockedPacks

/-- Reducer invocation for a type subject: extend the stores with the
reducer's allocations and apply its result. -/
def stepTypeReduce (ctx : SCtx) (s : ReducerState) (subject : TypeId)
    (args : List TypeId) (packArgs : List TypePackId) : ReducerState :=
  handleTFRTy ctx
    { s with heap := s.heap ++ (ctx.reduceTy subject args packArgs s.heap s.pheap).2.1,
             pheap := s.pheap ++ (ctx.reduceTy subject args packArgs s.heap s.pheap).2.2 }
    subject
    (ctx.reduceTy subject args packArgs s.heap s.pheap).1

/-- Guess-then-reduce for a type subject (a failed guess leaves the state
unchanged, so the reducer path starts from the same state). -/
def stepTypeGuessOrReduce (ctx : SCtx) (s : ReducerState) (subject : TypeId)
    (args : List TypeId) (packArgs : List TypePackId) : ReducerState :=
  if (tryGuessingTy ctx s subject).1 then (tryGuessingTy ctx s subject).2
  else stepTypeReduce ctx s subject args packArgs

/-- After a failed parameter test on a non-cyclic subject: a subject left in
a terminal state still gets a best-effort guess. -/
def stepTypeStuckGuess (ctx : SCtx) (s : ReducerState) (subject : TypeId) : ReducerState :=
  if getStateTy s.heap subject = .Stuck ∨ getStateTy s.heap subject = .Solved then
    (tryGuessingTy ctx s subject).2
  else s

/-- Body of a type-queue step once the subject is popped and followed:
skip irreducible subjects, reject user functions with unscoped generics,
test readiness (the cyclic-readiness test runs against the pre-test state),
then guess or reduce. -/
def stepTypePopped (ctx : SCtx) (s1 : ReducerState) (subject : TypeId) : ReducerState :=
  if subject ∈ s1.irredTys then s1
  else
    match getNode s1.heap subject with
    | some (.tfit fd args packArgs _) =>
      if fd.name = "user" ∧ ctx.hasUnscopedGeneric subject then
        insertResultIrredTy (insertIrredTy s1 subject) subject
      else if ¬(testParamsTy ctx s1 subject fd args packArgs).1 ∧
              skipTestTy s1 subject ≠ .CyclicTypeFunction then
        stepTypeStuckGuess ctx (testParamsTy ctx s1 subject fd args packArgs).2 subject
      else
        stepTypeGuessOrReduce ctx (testParamsTy ctx s1 subject fd args packArgs).2 subject args packArgs
    | _ => s1

/-- One scheduler step on the type queue (`stepType`). -/
def stepType (ctx : SCtx) (s : ReducerState) : ReducerState :=
  match s.queuedTys with
  | [] => s
  | t :: rest => stepTypePopped ctx { s with queuedTys := rest } (followTy s.heap t)

/-- Reducer invocation for a pack subject. -/
def stepPackReduce (ctx : SCtx) (s : ReducerState) (subject : TypePackId)
    (args : List TypeId) (packArgs : List TypePackId) : ReducerState :=
  handleTFRTp ctx
    { s with heap := s.heap ++ (ctx.reduceTp subject args packArgs s.heap s.pheap).2.1,
             pheap := s.pheap ++ (ctx.reduceTp subject args packArgs s.heap s.pheap).2.2 }
    subject
    (ctx.reduceTp subject args packArgs s.heap s.pheap).1

/-- Guess-then-reduce for a pack subject. -/
def stepPackGuessOrReduce (ctx : SCtx) (s : ReducerState) (subject : TypePackId)
    (args : List TypeId) (packArgs : List TypePackId) : ReducerState :=
  if (tryGuessingTp ctx s subject).1 then (tryGuessingTp ctx s subject).2
  else stepPackReduce ctx s subject args packArgs

/-- Body of a pack-queue step once the subject is popped and followed (a
successful parameter test leaves the state unchanged, so the guess/reduce
path starts from the same state). -/
def stepPackPopped (ctx : SCtx) (s1 : ReducerState) (subject : TypePackId) : ReducerState :=
  if subject ∈ s1.irredTps then s1
  else
    match getPNode s1.pheap subject with
    | some (.pfit fd args packArgs) =>
      if ¬(testParamsTp ctx s1 subject fd args packArgs).1 then
        (testParamsTp ctx s1 subject fd args packArgs).2
      else
        stepPackGuessOrReduce ctx s1 subject args packArgs
    | _ => s1

/-- One scheduler step on the pack queue (`stepPack`). -/
def stepPack (ctx : SCtx) (s : ReducerState) : ReducerState :=
  match s.queuedTps with
  | [] => s
  | p :: rest => stepPackPopped ctx { s with queuedTps := rest } (followTp s.pheap p)

/-- One scheduler step (`step`): types before packs. -/
def stepS (ctx : SCtx) (s : ReducerState) : ReducerState :=
  if s.queuedTys ≠ [] then stepType ctx s
  else if s.queuedTps ≠ [] then stepPack ctx s
  else s

/-- Iterated scheduler steps. -/
def stepN (ctx : SCtx) : Nat → ReducerState → ReducerState
  | 0, s => s
  | n + 1, s => stepN ctx n (stepS ctx s)

/-- Whether both queues are empty (`done`). -/
def doneS (s : ReducerState) : Prop :=
  s.queuedTys = [] ∧ s.queuedTps = []

instance (s : ReducerState) : Decidable (doneS s) := by
  unfold doneS
  infer_instance

/-- The run loop of `reduceFunctionsInternal`: repeat "check done, step,
count" with the iteration budget; running past the budget performs one more
step, appends a single `CodeTooComplex` diagnostic and aborts.  Returns the
final state, the number of steps executed, and the aborted flag. -/
def runLoop (ctx : SCtx) : Nat → ReducerState → ReducerState × Nat × Bool
  | fuel, s =>
    if doneS s then (s, 0, false)
    else
      match fuel with
      | 0 => (pushErr (stepS ctx s) .codeTooComplex, 1, true)
      | fuel' + 1 =>
        let r := runLoop ctx fuel' (stepS ctx s)
        (r.1, r.2.1 + 1, r.2.2)

/-- The entry `reduceFunctionsInternal`: a re-entrant request (the
re-entrancy flag is already set for this session) returns an empty result
without stepping; otherwise the run loop executes with the step budget.
Returns the result record, the final stores, the step count and the
aborted-by-budget flag. -/
def reduceFunctionsInternal (ctx : SCtx) (s0 : ReducerState) (reentrant : Bool) (maxSteps : Nat) :
    FGRResult × Heap × PHeap × Nat × Bool :=
  if reentrant then (emptyFGR, s0.heap, s0.pheap, 0, false)
  else
    let r := runLoop ctx maxSteps s0
    (r.1.result, r.1.heap, r.1.pheap, r.2.1, r.2.2)

/-- Number of `CodeTooComplex` diagnostics in an error list. -/
def countCTC (errs : List Err) : Nat :=
  (errs.filter fun e => e = Err.codeTooComplex).length

/-! ## Dependency collector (`InstanceCollector`) and the outer entry point -/

/-- State accumulated by the collector's traversal: the once-visited sets, the
innermost-first queues (`push_front` on discovery), the guess-flagged sets,
the active traversal stack and the detected true cycles. -/
structure CollectSt where
  seenTys : List TypeId
  seenTps : List TypePackId
  tys : List TypeId
  tps : List TypePackId
  shouldGuessT : List TypeId
  shouldGuessP : List TypePackId
  stack : List (Sum TypeId TypePackId)
  cyclics : List TypeId
deriving DecidableEq, Repr

/-- The collector's initial state. -/
def emptyCollectSt : CollectSt :=
  { seenTys := [], seenTps := [], tys := [], tps := [], shouldGuessT := [], shouldGuessP := [],
    stack := [], cyclics := [] }

/-- Whether the instance stack exceeds the guesser-depth threshold
(`LuauTypeFamilyUseGuesserDepth`; `none` models the disabled default of -1). -/
def guessHit (gd : Option Nat) (stack : List (Sum TypeId TypePackId)) : Bool :=
  match gd with
  | some d => stack.length > d
  | none => false

/-- Boolean membership in the traversal stack. -/
def stackHas : List (Sum TypeId TypePackId) → Sum TypeId TypePackId → Bool
  | [], _ => false
  | y :: rest, x => if y = x then true else stackHas rest x

/-- Sequential traversal of a list of work items, propagating failure. -/
def collectSeq (go : Sum TypeId TypePackId → CollectSt → Except Unit CollectSt) :
    List (Sum TypeId TypePackId) → CollectSt → Except Unit CollectSt
  | [], st => .ok st
  | c :: rest, st =>
    match go c st with
    | .error e => .error e
    | .ok st' => collectSeq go rest st'

/-- Mark a type node visited. -/
def markSeenTy (st : CollectSt) (t : TypeId) : CollectSt :=
  { st with seenTys := t :: st.seenTys }

/-- Mark a pack node visited. -/
def markSeenTp (st : CollectSt) (p : TypePackId) : CollectSt :=
  { st with seenTps := p :: st.seenTps }

/-- Enter a type function instance: push it on the traversal stack, flag it
for guessing past the threshold, and record it innermost-first. -/
def enterTfit (gd : Option Nat) (st : CollectSt) (t : TypeId) : CollectSt :=
  { st with stack := .inl t :: st.stack,
            shouldGuessT := if guessHit gd (.inl t :: st.stack) then t :: st.shouldGuessT
                            else st.shouldGuessT,
            tys := t :: st.tys }

/-- Enter a pack function instance. -/
def enterPfit (gd : Option Nat) (st : CollectSt) (p : TypePackId) : CollectSt :=
  { st with stack := .inr p :: st.stack,
            shouldGuessP := if guessHit gd (.inr p :: st.stack) then p :: st.shouldGuessP
                            else st.shouldGuessP,
            tps := p :: st.tps }

/-- Leave a function instance: pop the traversal stack. -/
def exitStack (st : CollectSt) : CollectSt :=
  { st with stack := st.stack.tail }

/-- Record a true cycle: a function instance revisited while still on the
traversal stack. -/
def cycleNote (heap : Heap) (st : CollectSt) (t : TypeId) : CollectSt :=
  if isTFITAt heap t ∧ stackHas st.stack (Sum.inl t) then
    { st with cyclics := st.cyclics ++ [t] }
  else st

/-- Depth-first collector traversal (`InstanceCollector` over the once-visit
visitor): resolve through bound links, record each function instance
innermost-first, detect instances revisited while still on the traversal
stack as true cycles, and fail (`RecursionLimitException`) when the depth
fuel runs out. -/
def collectGo (heap : Heap) (pheap : PHeap) (gd : Option Nat) :
    Nat → Sum TypeId TypePackId → CollectSt → Except Unit CollectSt
  | 0, _, _ => .error ()
  | fuel + 1, .inl t0, st =>
    if followTy heap t0 ∈ st.seenTys then
      .ok (cycleNote heap st (followTy heap t0))
    else
      match getNode heap (followTy heap t0) with
      | some (.tfit _ args pargs _) =>
        (collectSeq (fun c acc => collectGo heap pheap gd fuel c acc)
          (args.map Sum.inl ++ pargs.map Sum.inr)
          (enterTfit gd (markSeenTy st (followTy heap t0)) (followTy heap t0))).map exitStack
      | some (.union parts) =>
        collectSeq (fun c acc => collectGo heap pheap gd fuel c acc) (parts.map Sum.inl)
          (markSeenTy st (followTy heap t0))
      | some (.inter parts) =>
        collectSeq (fun c acc => collectGo heap pheap gd fuel c acc) (parts.map Sum.inl)
          (markSeenTy st (followTy heap t0))
      | some (.bound u) =>
        collectGo heap pheap gd fuel (.inl u) (markSeenTy st (followTy heap t0))
      | _ => .ok (markSeenTy st (followTy heap t0))
  | fuel + 1, .inr p0, st =>
    if followTp pheap p0 ∈ st.seenTps then .ok st
    else
      match getPNode pheap (followTp pheap p0) with
      | some (.pfit _ args pargs) =>
        (collectSeq (fun c acc => collectGo heap pheap gd fuel c acc)
          (args.map Sum.inl ++ pargs.map Sum.inr)
          (enterPfit gd (markSeenTp st (followTp pheap p0)) (followTp pheap p0))).map exitStack
      | some (.listP tys) =>
        collectSeq (fun c acc => collectGo heap pheap gd fuel c acc) (tys.map Sum.inl)
          (markSeenTp st (followTp pheap p0))
      | some (.boundP q) =>
        collectGo heap pheap gd fuel (.inr q) (markSeenTp st (followTp pheap p0))
      | _ => .ok (markSeenTp st (followTp pheap p0))

/-- Immediate children of a graph node, as the traversal sees them. -/
def graphChildren (heap : Heap) (pheap : PHeap) : Sum TypeId TypePackId → List (Sum TypeId TypePackId)
  | .inl t =>
    match getNode heap t with
    | some (.bound u) => [.inl u]
    | some (.union parts) => parts.map .inl
    | some (.inter parts) => parts.map .inl
    | some (.tfit _ args pargs _) => args.map .inl ++ pargs.map .inr
    | _ => []
  | .inr p =>
    match getPNode pheap p with
    | some (.boundP q) => [.inr q]
    | some (.pfit _ args pargs) => args.map .inl ++ pargs.map .inr
    | some (.listP tys) => tys.map .inl
    | _ => []

/-- Reachability along the graph's child edges. -/
inductive Reach (heap : Heap) (pheap : PHeap) :
    Sum TypeId TypePackId → Sum TypeId TypePackId → Prop where
  | refl (x : Sum TypeId TypePackId) : Reach heap pheap x x
  | step {x c y : Sum TypeId TypePackId} :
      c ∈ graphChildren heap pheap x → Reach heap pheap c y → Reach heap pheap x y

/-- The outer entry point `reduceTypeFunctions`: run the collector (a
recursion-limit failure yields an empty result), return an empty result when
no instance was found, and otherwise run the scheduler over the collected
queues. Returns the result record and the final stores. -/
def reduceTypeFunctions (ctx : SCtx) (heap : Heap) (pheap : PHeap) (entry : TypeId)
    (recLimit : Nat) (gd : Option Nat) (maxSteps : Nat) (reentrant force : Bool) :
    FGRResult × Heap × PHeap :=
  match collectGo heap pheap gd recLimit (.inl entry) emptyCollectSt with
  | .error _ => (emptyFGR, heap, pheap)
  | .ok st =>
    if st.tys = [] ∧ st.tps = [] then (emptyFGR, heap, pheap)
    else
      let r := reduceFunctionsInternal ctx
        { heap := heap, pheap := pheap, queuedTys := st.tys, queuedTps := st.tps,
          shouldGuessT := st.shouldGuessT, shouldGuessP := st.shouldGuessP,
          cyclics := st.cyclics, irredTys := [], irredTps := [], result := emptyFGR,
          force := force }
        reentrant maxSteps
      (r.1, r.2.1, r.2.2.1)

/-! ## Concrete inputs used by witnesses and counterexamples -/

/-- Heap for the C1 witness: a two-option union. -/
def c1Heap : Heap :=
  [⟨1, .prim .num⟩, ⟨1, .prim .str⟩, ⟨1, .union [0, 1]⟩]

/-- Inert reducer used as the distributed function in the C1 witness. -/
def c1F : TypeId → List TypeId → List TypePackId → Heap → RR TypeId × Heap :=
  fun _ _ _ h => ({ result := none, reductionStatus := .MaybeOk, blockedTypes := [], blockedPacks := [] }, h)

/-- Builtins layout shared by concrete examples: number 0, string 1, boolean 2,
nil 3, never 4, any 5, error 6, unknown 7. -/
def exBuiltins : Builtins :=
  { numberTy := 0, stringTy := 1, booleanTy := 2, nilTy := 3,
    neverTy := 4, anyTy := 5, errorTy := 6, unknownTy := 7 }

/-- User-function data for the C3 counterexample: well-formed definition whose
body has parse errors. -/
def c3Ufd : UserFuncData :=
  { ownerExpired := false, hasName := true, hasDefinition := true,
    defHasErrors := true, envFunctionHasParseErrors := false, envRegistrationFails := false }

/-- Context for the C3 counterexample: evaluation enabled, nothing blocked. -/
def c3Ctx : UCtx :=
  { builtins := exBuiltins, allowEvaluation := true, stateMissing := false,
    findBlockers := fun _ => [], sandboxOutcome := .ice "unreached" }

/-- User-function data for the C3 witness: error-free definition. -/
def c3WUfd : UserFuncData :=
  { ownerExpired := false, hasName := true, hasDefinition := true,
    defHasErrors := false, envFunctionHasParseErrors := false, envRegistrationFails := false }

/-- Context for the C3 witness: evaluation globally disabled. -/
def c3WCtx : UCtx :=
  { builtins := exBuiltins, allowEvaluation := false, stateMissing := false,
    findBlockers := fun _ => [], sandboxOutcome := .ice "unreached" }

/-- Descriptor of the `not` builtin. -/
def notDescr : TFDescr := { name := "not", canReduceGenerics := true }

/-- Heap for the C10 counterexample: `not<number | string>`. Node 3 is the
`not` instance applied to the union node 2. -/
def c10Heap : Heap :=
  [⟨1, .prim .num⟩, ⟨1, .prim .str⟩, ⟨1, .union [0, 1]⟩, ⟨1, .tfit notDescr [2] [] .Unsolved⟩]

/-- Builtin-reducer context for the C10 example. -/
def c10Ctx : BCtx :=
  { arenaId := 1, builtins := exBuiltins, solverPending := fun _ => false,
    normalize := fun _ => none, findMetatableEntry := fun _ _ => none,
    solveCall := fun _ _ => none, cartesianLimit := 5000 }

/-- Heap for the C2 witness: `add<T, T>` where both arguments are the
instance node itself. -/
def c2Heap : Heap :=
  [⟨1, .tfit { name := "add", canReduceGenerics := false } [0, 0] [] .Unsolved⟩]

/-- Descriptor of the `add` builtin as stored on instance nodes. -/
def addDescr : TFDescr := { name := "add", canReduceGenerics := false }

/-- A scheduler context with inert oracles (no unscoped generics, no
guessing, reducers that block without allocating). -/
def inertSCtx : SCtx :=
  { arenaId := 1, hasUnscopedGeneric := fun _ => false,
    guessTy := fun _ => none, guessTp := fun _ => none,
    reduceTy := fun _ _ _ _ _ =>
      ({ result := none, reductionStatus := .MaybeOk, blockedTypes := [], blockedPacks := [] }, [], []),
    reduceTp := fun _ _ _ _ _ =>
      ({ result := none, reductionStatus := .MaybeOk, blockedTypes := [], blockedPacks := [] }, [], []) }

/-- Scheduler context for the C4 example. -/
def c4Ctx : SCtx := inertSCtx

/-- Reducer state for the C4 example: node 0 is owned by arena 7, foreign to
the engine's arena 1. -/
def c4State : ReducerState :=
  { heap := [⟨7, .tfit addDescr [] [] .Unsolved⟩],
    pheap := [⟨7, .pfit addDescr [] []⟩],
    queuedTys := [], queuedTps := [], shouldGuessT := [], shouldGuessP := [],
    cyclics := [], irredTys := [], irredTps := [], result := emptyFGR, force := false }

/-- Scheduler context for the C5 witness. -/
def c5Ctx : SCtx := inertSCtx

/-- Reducer state for the C5 witness: instance 0 depends on instance 1,
which is already `Stuck`, so the first step marks 0 `Stuck`. -/
def c5State : ReducerState :=
  { heap := [⟨1, .tfit addDescr [1] [] .Unsolved⟩, ⟨1, .tfit addDescr [] [] .Stuck⟩],
    pheap := [], queuedTys := [0], queuedTps := [], shouldGuessT := [], shouldGuessP := [],
    cyclics := [], irredTys := [], irredTps := [], result := emptyFGR, force := false }

/-- Scheduler context for the C7 example. -/
def c7Ctx : SCtx := inertSCtx

/-- Reducer state for the C7 counterexample: two instances that defer on each
other forever, so the loop only stops at the budget. -/
def c7State : ReducerState :=
  { heap := [⟨1, .tfit addDescr [1] [] .Unsolved⟩, ⟨1, .tfit addDescr [0] [] .Unsolved⟩],
    pheap := [], queuedTys := [0, 1], queuedTps := [], shouldGuessT := [], shouldGuessP := [],
    cyclics := [], irredTys := [], irredTps := [], result := emptyFGR, force := false }

/-- An already-done reducer state (both queues empty) for the C7 witness. -/
def c7DoneState : ReducerState :=
  { heap := [], pheap := [], queuedTys := [], queuedTps := [], shouldGuessT := [], shouldGuessP := [],
    cyclics := [], irredTys := [], irredTps := [], result := emptyFGR, force := false }

/-- Scheduler context for the C6 witness. -/
def c6Ctx : SCtx := inertSCtx

/-- Heap for the C6 witness: a union of two primitives, no function-instance
node anywhere. -/
def c6Heap : Heap :=
  [⟨1, .union [1, 2]⟩, ⟨1, .prim .num⟩, ⟨1, .prim .str⟩]

/-- Scheduler context for the C9 witness. -/
def c9Ctx : SCtx := inertSCtx

/-- Heap for the C9 witness: a nesting of unions deeper than the recursion
limit used in the witness. -/
def c9Heap : Heap :=
  [⟨1, .union [1]⟩, ⟨1, .union [2]⟩, ⟨1, .prim .num⟩]

/-! ## Helper lemmas -/

/-- If no argument of the list resolves to a union, the cartesian product of
union sizes over that list is 1. -/
theorem unionSizesProd_eq_one_of_no_union (heap : Heap) (rest : List TypeId)
    (h : ∀ a ∈ rest, unionParts heap (followTy heap a) = none) :
    unionSizesProd heap rest = 1 := by
  unfold unionSizesProd
  apply List.prod_eq_one
  intro x hx
  rcases List.mem_map.mp hx with ⟨a, ha, rfl⟩
  unfold unionFactor
  rw [h a ha]

/-- The first scan of union distribution trips the cartesian-product ceiling
whenever the remaining arguments contain a union and the accumulated product
times the remaining union sizes reaches the limit. -/
theorem scanUnions_tooBig (heap : Heap) (limit : Nat) :
    ∀ (rest : List TypeId) (i prod : Nat) (first : Option (Nat × List TypeId)),
      (∃ a ∈ rest, (unionParts heap (followTy heap a)).isSome) →
      limit ≤ prod * unionSizesProd heap rest →
      scanUnions heap limit rest i prod first = .tooBig := by
  intro rest
  induction rest with
  | nil =>
    intro i prod first hex _
    simp at hex
  | cons a rest ih =>
    intro i prod first hex hle
    by_cases hu : (unionParts heap (followTy heap a)).isSome
    · rcases Option.isSome_iff_exists.mp hu with ⟨opts, hopts⟩
      have hprodcons : unionSizesProd heap (a :: rest) =
          opts.length * unionSizesProd heap rest := by
        unfold unionSizesProd
        simp [List.prod_cons, unionFactor, hopts]
      by_cases hc : limit ≤ prod * opts.length
      · simp only [scanUnions, hopts]
        simp [hc]
      · have hle' : limit ≤ prod * opts.length * unionSizesProd heap rest := by
          rw [hprodcons] at hle
          calc limit ≤ prod * (opts.length * unionSizesProd heap rest) := hle
            _ = prod * opts.length * unionSizesProd heap rest := by ring
        by_cases hex' : ∃ b ∈ rest, (unionParts heap (followTy heap b)).isSome
        · simp only [scanUnions, hopts]
          simp only [hc, if_false]
          exact ih (i + 1) (prod * opts.length) _ hex' hle'
        · exfalso
          push_neg at hex'
          have hnone : ∀ b ∈ rest, unionParts heap (followTy heap b) = none := by
            intro b hb
            exact Option.not_isSome_iff_eq_none.mp (by simpa using hex' b hb)
          rw [unionSizesProd_eq_one_of_no_union heap rest hnone, Nat.mul_one] at hle'
          exact hc hle'
    · have hu' : unionParts heap (followTy heap a) = none :=
        Option.not_isSome_iff_eq_none.mp (by simpa using hu)
      have hex' : ∃ b ∈ rest, (unionParts heap (followTy heap b)).isSome := by
        rcases hex with ⟨b, hb, hsome⟩
        rcases List.mem_cons.mp hb with rfl | hb'
        · rw [hu'] at hsome; simp at hsome
        · exact ⟨b, hb', hsome⟩
      have hprodcons : unionSizesProd heap (a :: rest) = unionSizesProd heap rest := by
        unfold unionSizesProd
        simp [List.prod_cons, unionFactor, hu']
      rw [hprodcons] at hle
      simp only [scanUnions, hu']
      exact ih (i + 1) prod first hex' hle

/-- Self-reference branch of the shared numeric binop skeleton: when either
followed operand is the instance, the reduction is `never` with `MaybeOk`. -/
theorem numericBinopN_self_reference (ctx : BCtx) (fuel : Nat) (mm : String) (heap : Heap)
    (instance_ a b : TypeId)
    (h : followTy heap a = instance_ ∨ followTy heap b = instance_) :
    numericBinopN ctx fuel mm instance_ [a, b] [] heap =
      (.res { result := some ctx.builtins.neverTy, reductionStatus := .MaybeOk,
              blockedTypes := [], blockedPacks := [] }, heap) := by
  unfold numericBinopN
  have harity : ¬(([a, b] : List TypeId).length ≠ 2 ∨ ([] : List TypePackId) ≠ []) := by simp
  rw [if_neg harity]
  simp only [List.headD_cons, List.getD_cons_succ, List.getD_cons_zero]
  rw [if_pos h]

/-- Insertion puts its argument in the set. -/
theorem mem_insertList_self (l : List Nat) (x : Nat) : x ∈ insertList l x := by
  unfold insertList
  by_cases h : x ∈ l <;> simp [h]

/-- Insertion preserves membership. -/
theorem mem_insertList_of_mem (l : List Nat) (x y : Nat) (h : y ∈ l) : y ∈ insertList l x := by
  unfold insertList
  by_cases hx : x ∈ l <;> simp [hx, h]

/-- Reading off the overwritten index is unchanged. -/
theorem getNode_setNode_ne (heap : Heap) (t i : TypeId) (n : TypeNode) (h : i ≠ t) :
    getNode (setNode heap t n) i = getNode heap i := by
  unfold setNode
  cases hg : heap.get? t with
  | none => rfl
  | some hn =>
    unfold getNode
    rw [List.get?_set_ne _ _ (Ne.symm h)]

/-- Reading the overwritten index yields the new node when it exists. -/
theorem getNode_setNode_self (heap : Heap) (t : TypeId) (n : TypeNode) (hn0 : HNode)
    (hg : heap.get? t = some hn0) :
    getNode (setNode heap t n) t = some n := by
  unfold setNode
  rw [hg]
  unfold getNode
  rw [List.get?_set_eq_of_lt _ (List.get?_eq_some.mp hg).1]
  rfl

/-- A node exists exactly when its index is in range. -/
theorem getNode_ne_none_iff (heap : Heap) (i : TypeId) :
    getNode heap i ≠ none ↔ i < heap.length := by
  unfold getNode
  rw [Ne, Option.map_eq_none', List.get?_eq_none, not_le]

/-- Overwriting preserves the store's length. -/
theorem length_setNode (heap : Heap) (t : TypeId) (n : TypeNode) :
    (setNode heap t n).length = heap.length := by
  unfold setNode
  cases heap.get? t <;> simp

/-- Extending the store preserves existing nodes. -/
theorem getNode_append_of_some (heap ext : Heap) (i : TypeId) (nd : TypeNode)
    (h : getNode heap i = some nd) : getNode (heap ++ ext) i = some nd := by
  unfold getNode at *
  cases hg : heap.get? i with
  | none => rw [hg] at h; simp at h
  | some hn =>
    rw [List.get?_append (List.get?_eq_some.mp hg).1, hg]
    rw [hg] at h
    exact h

/-- Equal node reads give equal tri-state reads. -/
theorem stateAt_congr (h1 h2 : Heap) (i : TypeId) (h : getNode h1 i = getNode h2 i) :
    stateAt h1 i = stateAt h2 i := by
  unfold stateAt
  rw [h]

/-- Appending one diagnostic adds to the too-complex count only when it is
`codeTooComplex`. -/
theorem countCTC_append (errs : List Err) (e : Err) :
    countCTC (errs ++ [e]) = countCTC errs + (if e = Err.codeTooComplex then 1 else 0) := by
  unfold countCTC
  rw [List.filter_append, List.length_append]
  congr 1
  by_cases he : e = Err.codeTooComplex <;> simp [he]

/-! ### Step frame: what one scheduler operation can and cannot change -/

/-- Frame property of a scheduler operation targeting `subject`: the
irreducible set only grows, nodes other than the subject keep their stored
node, the store's domain only grows, a tri-state visible afterwards on a
non-irreducible node was already there (or the node is new), and the
too-complex diagnostic count is unchanged. -/
structure Frame (s s' : ReducerState) (subject : TypeId) : Prop where
  irred_mono : ∀ i, i ∈ s.irredTys → i ∈ s'.irredTys
  heap_pres : ∀ i nd, i ≠ subject → getNode s.heap i = some nd → getNode s'.heap i = some nd
  dom_mono : ∀ i, getNode s.heap i ≠ none → getNode s'.heap i ≠ none
  state_tracked : ∀ i v, i ∉ s'.irredTys → stateAt s'.heap i = some v →
    stateAt s.heap i = some v ∨ getNode s.heap i = none
  ctc : countCTC s'.result.errors = countCTC s.result.errors

/-- The identity operation is a frame. -/
theorem frame_refl (s : ReducerState) (subject : TypeId) : Frame s s subject :=
  ⟨fun _ h => h, fun _ _ _ h => h, fun _ h => h, fun _ _ _ h => Or.inl h, rfl⟩

/-- Frames compose. -/
theorem frame_trans {s1 s2 s3 : ReducerState} {subject : TypeId}
    (f1 : Frame s1 s2 subject) (f2 : Frame s2 s3 subject) : Frame s1 s3 subject := by
  refine ⟨fun i h => f2.irred_mono i (f1.irred_mono i h),
          fun i nd hne h => f2.heap_pres i nd hne (f1.heap_pres i nd hne h),
          fun i h => f2.dom_mono i (f1.dom_mono i h),
          ?_, f2.ctc.trans f1.ctc⟩
  intro i v hi3 hst3
  have hi2 : i ∉ s2.irredTys := fun h => hi3 (f2.irred_mono i h)
  rcases f2.state_tracked i v hi3 hst3 with hst2 | hn2
  · exact f1.state_tracked i v hi2 hst2
  · right
    by_contra hne
    exact (f1.dom_mono i hne) hn2

/-- Operations that keep the type store are frames whenever the irreducible
set grows and the too-complex count is preserved. -/
theorem frame_of_parts (s s' : ReducerState) (subject : TypeId)
    (hheap : s'.heap = s.heap)
    (hirr : ∀ i, i ∈ s.irredTys → i ∈ s'.irredTys)
    (hctc : countCTC s'.result.errors = countCTC s.result.errors) :
    Frame s s' subject := by
  refine ⟨hirr, ?_, ?_, ?_, hctc⟩
  · intro i nd _ h; rw [hheap]; exact h
  · intro i h; rw [hheap]; exact h
  · intro i v _ h; rw [hheap] at h; exact Or.inl h

/-- Frame: recording a non-too-complex diagnostic. -/
theorem frame_pushErr (s : ReducerState) (e : Err) (subject : TypeId)
    (he : e ≠ Err.codeTooComplex) : Frame s (pushErr s e) subject :=
  frame_of_parts _ _ _ rfl (fun _ h => h) (by simp [pushErr, countCTC_append, he])

/-- Frame: recording reducer messages. -/
theorem frame_pushMsgs (s : ReducerState) (msgs : List String) (subject : TypeId) :
    Frame s (pushMsgs s msgs) subject :=
  frame_of_parts _ _ _ rfl (fun _ h => h) rfl

/-- Frame: marking a type irreducible. -/
theorem frame_insertIrredTy (s : ReducerState) (t : TypeId) (subject : TypeId) :
    Frame s (insertIrredTy s t) subject :=
  frame_of_parts _ _ _ rfl (fun i h => mem_insertList_of_mem _ _ _ h) rfl

/-- Frame: marking a pack irreducible. -/
theorem frame_insertIrredTp (s : ReducerState) (p : TypePackId) (subject : TypeId) :
    Frame s (insertIrredTp s p) subject :=
  frame_of_parts _ _ _ rfl (fun _ h => h) rfl

/-- Frame: recording a permanently irreducible type for the caller. -/
theorem frame_insertResultIrredTy (s : ReducerState) (t : TypeId) (subject : TypeId) :
    Frame s (insertResultIrredTy s t) subject :=
  frame_of_parts _ _ _ rfl (fun _ h => h) rfl

/-- Frame: re-queuing a type subject. -/
theorem frame_pushQueueTy (s : ReducerState) (t : TypeId) (subject : TypeId) :
    Frame s (pushQueueTy s t) subject :=
  frame_of_parts _ _ _ rfl (fun _ h => h) rfl

/-- Frame: re-queuing a pack subject. -/
theorem frame_pushQueueTp (s : ReducerState) (p : TypePackId) (subject : TypeId) :
    Frame s (pushQueueTp s p) subject :=
  frame_of_parts _ _ _ rfl (fun _ h => h) rfl

/-- Frame: recording blocked nodes. -/
theorem frame_recordBlocked (s : ReducerState) (bt : List TypeId) (bp : List TypePackId)
    (subject : TypeId) : Frame s (recordBlocked s bt bp) subject :=
  frame_of_parts _ _ _ rfl (fun _ h => h) rfl

/-- Frame: recording the reducer's optional error message. -/
theorem frame_handleErrPart (s : ReducerState) (e : Option String) (subject : TypeId) :
    Frame s (handleErrPart s e) subject := by
  cases e with
  | none => exact frame_refl s subject
  | some m => exact frame_pushErr s _ subject (fun hc => Err.noConfusion hc)

/-- The error-message stage does not change the irreducible set. -/
theorem irredTys_handleErrPart (s : ReducerState) (e : Option String) :
    (handleErrPart s e).irredTys = s.irredTys := by
  cases e <;> rfl

/-- Frame: rebinding a type subject. -/
theorem frame_replaceTy (ctx : SCtx) (s : ReducerState) (subject repl : TypeId) :
    Frame s (replaceTy ctx s subject repl) subject := by
  unfold replaceTy
  by_cases h : ownerAt s.heap subject ≠ some ctx.arenaId
  · rw [if_pos h]
    exact frame_pushErr s _ subject (fun hc => Err.noConfusion hc)
  · rw [if_neg h]
    refine ⟨fun _ hh => hh, ?_, ?_, ?_, rfl⟩
    · intro i nd hne hg
      show getNode (setNode s.heap subject (.bound repl)) i = some nd
      rw [getNode_setNode_ne s.heap subject i _ hne]
      exact hg
    · intro i hg
      rw [getNode_ne_none_iff] at hg ⊢
      show i < (setNode s.heap subject (.bound repl)).length
      rw [length_setNode]
      exact hg
    · intro i v _ hstv
      by_cases hi : i = subject
      · subst hi
        cases hg : s.heap.get? i with
        | none =>
          right
          unfold getNode
          rw [hg]
          rfl
        | some hn =>
          exfalso
          have hset : getNode (setNode s.heap i (.bound repl)) i = some (.bound repl) :=
            getNode_setNode_self s.heap i _ hn hg
          have : stateAt (setNode s.heap i (.bound repl)) i = none := by
            unfold stateAt
            rw [hset]
          rw [this] at hstv
          exact Option.noConfusion hstv
      · left
        have heq : getNode (setNode s.heap subject (.bound repl)) i = getNode s.heap i :=
          getNode_setNode_ne s.heap subject i _ hi
        rw [stateAt_congr _ _ _ heq] at hstv
        exact hstv

/-- Frame: rebinding a pack subject (the type store is untouched). -/
theorem frame_replaceTp (ctx : SCtx) (s : ReducerState) (psub prepl : TypePackId)
    (subject : TypeId) : Frame s (replaceTp ctx s psub prepl) subject := by
  unfold replaceTp
  by_cases h : pOwnerAt s.pheap psub ≠ some ctx.arenaId
  · rw [if_pos h]
    exact frame_pushErr s _ subject (fun hc => Err.noConfusion hc)
  · rw [if_neg h]
    exact frame_of_parts _ _ _ rfl (fun _ hh => hh) rfl

/-- Frame: updating the subject's tri-state, provided it is already marked
irreducible (as every caller guarantees). -/
theorem frame_setStateTy (ctx : SCtx) (s : ReducerState) (subject : TypeId) (st : TFState)
    (hsub : subject ∈ s.irredTys) : Frame s (setStateTy ctx s subject st) subject := by
  unfold setStateTy
  by_cases h : ownerAt s.heap subject ≠ some ctx.arenaId
  · rw [if_pos h]
    exact frame_refl s subject
  · rw [if_neg h]
    cases hg : getNode s.heap subject with
    | none => exact frame_refl s subject
    | some nd =>
      cases nd with
      | tfit fd args pargs st0 =>
        refine ⟨fun _ hh => hh, ?_, ?_, ?_, rfl⟩
        · intro i nd' hne hgi
          show getNode (setNode s.heap subject (.tfit fd args pargs st)) i = some nd'
          rw [getNode_setNode_ne s.heap subject i _ hne]
          exact hgi
        · intro i hgi
          rw [getNode_ne_none_iff] at hgi ⊢
          show i < (setNode s.heap subject (.tfit fd args pargs st)).length
          rw [length_setNode]
          exact hgi
        · intro i v hi hstv
          have hi_ne : i ≠ subject := by
            intro hh
            exact hi (hh ▸ hsub)
          left
          have heq : getNode (setNode s.heap subject (.tfit fd args pargs st)) i = getNode s.heap i :=
            getNode_setNode_ne s.heap subject i _ hi_ne
          rw [stateAt_congr _ _ _ heq] at hstv
          exact hstv
      | bound t => exact frame_refl s subject
      | prim k => exact frame_refl s subject
      | never => exact frame_refl s subject
      | anyT => exact frame_refl s subject
      | errorT => exact frame_refl s subject
      | unknownT => exact frame_refl s subject
      | generic => exact frame_refl s subject
      | blocked => exact frame_refl s subject
      | pendingExpansion => exact frame_refl s subject
      | union parts => exact frame_refl s subject
      | inter parts => exact frame_refl s subject
      | externT => exact frame_refl s subject
      | otherT => exact frame_refl s subject

/-- Frame: extending both stores with reducer allocations. -/
theorem frame_appendStores (s : ReducerState) (newT : List HNode) (newP : List HPNode)
    (subject : TypeId) :
    Frame s { s with heap := s.heap ++ newT, pheap := s.pheap ++ newP } subject := by
  refine ⟨fun _ h => h, ?_, ?_, ?_, rfl⟩
  · intro i nd _ hg
    exact getNode_append_of_some _ _ _ _ hg
  · intro i hg
    rcases Option.ne_none_iff_exists'.mp hg with ⟨nd, hnd⟩
    show getNode (s.heap ++ newT) i ≠ none
    rw [getNode_append_of_some _ _ _ _ hnd]
    exact Option.noConfusion
  · intro i v _ hstv
    cases hg : getNode s.heap i with
    | none => exact Or.inr rfl
    | some nd =>
      left
      have hkeep : getNode (s.heap ++ newT) i = some nd := getNode_append_of_some _ _ _ _ hg
      have heq : getNode (s.heap ++ newT) i = getNode s.heap i := by rw [hkeep, hg]
      rw [stateAt_congr _ _ _ heq] at hstv
      exact hstv

/-- Frame: the parameter test for a type subject. -/
theorem frame_testParamsTy (ctx : SCtx) (s : ReducerState) (subject : TypeId) (fd : TFDescr)
    (args : List TypeId) (packArgs : List TypePackId) :
    Frame s (testParamsTy ctx s subject fd args packArgs).2 subject := by
  unfold testParamsTy
  cases h1 : firstBlockingTyArgs s fd.canReduceGenerics args with
  | some sk =>
    cases sk
    case CyclicTypeFunction => exact frame_refl s subject
    case Irreducible => exact frame_insertIrredTy s subject subject
    case Stuck =>
      exact frame_trans (frame_insertIrredTy s subject subject)
        (frame_setStateTy ctx _ subject .Stuck (mem_insertList_self _ _))
    case Generic =>
      exact frame_trans (frame_insertIrredTy s subject subject)
        (frame_setStateTy ctx _ subject .Solved (mem_insertList_self _ _))
    case Defer => exact frame_pushQueueTy s subject subject
    case Okay => exact frame_refl s subject
  | none =>
    cases h2 : firstBlockingTpArgs s fd.canReduceGenerics packArgs with
    | some sk =>
      cases sk
      case CyclicTypeFunction => exact frame_refl s subject
      case Irreducible => exact frame_insertIrredTy s subject subject
      case Stuck => exact frame_refl s subject
      case Generic => exact frame_insertIrredTy s subject subject
      case Defer => exact frame_pushQueueTy s subject subject
      case Okay => exact frame_refl s subject
    | none => exact frame_refl s subject

/-- Frame: the parameter test for a pack subject. -/
theorem frame_testParamsTp (ctx : SCtx) (s : ReducerState) (psub : TypePackId) (fd : TFDescr)
    (args : List TypeId) (packArgs : List TypePackId) (subject : TypeId) :
    Frame s (testParamsTp ctx s psub fd args packArgs).2 subject := by
  unfold testParamsTp
  cases h1 : firstBlockingTyArgs s fd.canReduceGenerics args with
  | some sk =>
    cases sk
    case CyclicTypeFunction => exact frame_refl s subject
    case Irreducible => exact frame_insertIrredTp s psub subject
    case Stuck => exact frame_insertIrredTp s psub subject
    case Generic => exact frame_insertIrredTp s psub subject
    case Defer => exact frame_pushQueueTp s psub subject
    case Okay => exact frame_refl s subject
  | none =>
    cases h2 : firstBlockingTpArgs s fd.canReduceGenerics packArgs with
    | some sk =>
      cases sk
      case CyclicTypeFunction => exact frame_refl s subject
      case Irreducible => exact frame_insertIrredTp s psub subject
      case Stuck => exact frame_refl s subject
      case Generic => exact frame_insertIrredTp s psub subject
      case Defer => exact frame_pushQueueTp s psub subject
      case Okay => exact frame_refl s subject
    | none => exact frame_refl s subject

/-- Frame: guessing for a type subject. -/
theorem frame_tryGuessingTy (ctx : SCtx) (s : ReducerState) (subject : TypeId) :
    Frame s (tryGuessingTy ctx s subject).2 subject := by
  unfold tryGuessingTy
  by_cases h : subject ∈ s.shouldGuessT
  · rw [if_pos h]
    cases hg : ctx.guessTy subject with
    | some g => exact frame_replaceTy ctx s subject g
    | none => exact frame_refl s subject
  · rw [if_neg h]
    exact frame_refl s subject

/-- Frame: guessing for a pack subject. -/
theorem frame_tryGuessingTp (ctx : SCtx) (s : ReducerState) (psub : TypePackId)
    (subject : TypeId) : Frame s (tryGuessingTp ctx s psub).2 subject := by
  unfold tryGuessingTp
  by_cases h : psub ∈ s.shouldGuessP
  · rw [if_pos h]
    cases hg : ctx.guessTp psub with
    | some g => exact frame_replaceTp ctx s psub g subject
    | none => exact frame_refl s subject
  · rw [if_neg h]
    exact frame_refl s subject

/-- Frame: the terminal-state stage of result application. -/
theorem frame_handleTerminal (ctx : SCtx) (s : ReducerState) (subject : TypeId)
    (status : Reduction) (hsub : subject ∈ s.irredTys) :
    Frame s (handleTerminal ctx s subject status) subject := by
  unfold handleTerminal
  by_cases h : getStateTy s.heap subject = .Unsolved
  · rw [if_pos h]
    cases status with
    | MaybeOk => exact frame_setStateTy ctx s subject .Stuck hsub
    | Irreducible => exact frame_setStateTy ctx s subject .Solved hsub
    | Erroneous => exact frame_setStateTy ctx s subject .Stuck hsub
  · rw [if_neg h]
    exact frame_refl s subject

/-- Frame: applying a reduction result to a type subject. -/
theorem frame_handleTFRTy (ctx : SCtx) (s : ReducerState) (subject : TypeId) (r : RR TypeId) :
    Frame s (handleTFRTy ctx s subject r) subject := by
  unfold handleTFRTy
  cases hres : r.result with
  | some repl =>
    exact frame_trans (frame_pushMsgs s r.messages subject) (frame_replaceTy ctx _ subject repl)
  | none =>
    have fbase : Frame s (handleErrPart (insertIrredTy (pushMsgs s r.messages) subject) r.error) subject :=
      frame_trans (frame_pushMsgs s r.messages subject)
        (frame_trans (frame_insertIrredTy _ subject subject) (frame_handleErrPart _ r.error subject))
    have hmem : subject ∈ (handleErrPart (insertIrredTy (pushMsgs s r.messages) subject) r.error).irredTys := by
      rw [irredTys_handleErrPart]
      exact mem_insertList_self _ _
    by_cases hc : r.reductionStatus ≠ .MaybeOk ∨ s.force
    · rw [if_pos hc]
      refine frame_trans fbase (frame_trans (frame_handleTerminal ctx _ subject r.reductionStatus hmem) ?_)
      refine frame_pushErr _ _ subject (fun hcc => Err.noConfusion hcc)
    · rw [if_neg hc]
      exact frame_trans fbase (frame_recordBlocked _ r.blockedTypes r.blockedPacks subject)

/-- Frame: applying a reduction result to a pack subject. -/
theorem frame_handleTFRTp (ctx : SCtx) (s : ReducerState) (psub : TypePackId)
    (r : RR TypePackId) (subject : TypeId) : Frame s (handleTFRTp ctx s psub r) subject := by
  unfold handleTFRTp
  cases hres : r.result with
  | some repl =>
    exact frame_trans (frame_pushMsgs s r.messages subject) (frame_replaceTp ctx _ psub repl subject)
  | none =>
    have fbase : Frame s (handleErrPart (insertIrredTp (pushMsgs s r.messages) psub) r.error) subject :=
      frame_trans (frame_pushMsgs s r.messages subject)
        (frame_trans (frame_insertIrredTp _ psub subject) (frame_handleErrPart _ r.error subject))
    by_cases hc : r.reductionStatus ≠ .MaybeOk ∨ s.force
    · rw [if_pos hc]
      exact frame_trans fbase (frame_pushErr _ _ subject (fun hcc => Err.noConfusion hcc))
    · rw [if_neg hc]
      exact frame_trans fbase (frame_recordBlocked _ r.blockedTypes r.blockedPacks subject)

/-- Frame: the reducer invocation for a type subject. -/
theorem frame_stepTypeReduce (ctx : SCtx) (s : ReducerState) (subject : TypeId)
    (args : List TypeId) (packArgs : List TypePackId) :
    Frame s (stepTypeReduce ctx s subject args packArgs) subject := by
  unfold stepTypeReduce
  exact frame_trans (frame_appendStores s _ _ subject) (frame_handleTFRTy ctx _ subject _)

/-- Frame: guess-then-reduce for a type subject. -/
theorem frame_stepTypeGuessOrReduce (ctx : SCtx) (s : ReducerState) (subject : TypeId)
    (args : List TypeId) (packArgs : List TypePackId) :
    Frame s (stepTypeGuessOrReduce ctx s subject args packArgs) subject := by
  unfold stepTypeGuessOrReduce
  by_cases h : (tryGuessingTy ctx s subject).1 = true
  · rw [if_pos h]
    exact frame_tryGuessingTy ctx s subject
  · rw [if_neg h]
    exact frame_stepTypeReduce ctx s subject args packArgs

/-- Frame: the best-effort guess after a failed parameter test. -/
theorem frame_stepTypeStuckGuess (ctx : SCtx) (s : ReducerState) (subject : TypeId) :
    Frame s (stepTypeStuckGuess ctx s subject) subject := by
  unfold stepTypeStuckGuess
  by_cases h : getStateTy s.heap subject = .Stuck ∨ getStateTy s.heap subject = .Solved
  · rw [if_pos h]
    exact frame_tryGuessingTy ctx s subject
  · rw [if_neg h]
    exact frame_refl s subject

/-- Frame: the whole type-step body on a popped subject. -/
theorem frame_stepTypePopped (ctx : SCtx) (s1 : ReducerState) (subject : TypeId) :
    Frame s1 (stepTypePopped ctx s1 subject) subject := by
  unfold stepTypePopped
  by_cases hmem : subject ∈ s1.irredTys
  · rw [if_pos hmem]
    exact frame_refl s1 subject
  · rw [if_neg hmem]
    cases hg : getNode s1.heap subject with
    | none => exact frame_refl s1 subject
    | some nd =>
      cases nd with
      | tfit fd args packArgs st0 =>
        dsimp only
        by_cases hu : fd.name = "user" ∧ ctx.hasUnscopedGeneric subject = true
        · rw [if_pos hu]
          exact frame_trans (frame_insertIrredTy s1 subject subject)
            (frame_insertResultIrredTy _ subject subject)
        · rw [if_neg hu]
          by_cases hb : ¬(testParamsTy ctx s1 subject fd args packArgs).1 = true ∧
              skipTestTy s1 subject ≠ .CyclicTypeFunction
          · rw [if_pos hb]
            exact frame_trans (frame_testParamsTy ctx s1 subject fd args packArgs)
              (frame_stepTypeStuckGuess ctx _ subject)
          · rw [if_neg hb]
            exact frame_trans (frame_testParamsTy ctx s1 subject fd args packArgs)
              (frame_stepTypeGuessOrReduce ctx _ subject args packArgs)
      | bound t => exact frame_refl s1 subject
      | prim k => exact frame_refl s1 subject
      | never => exact frame_refl s1 subject
      | anyT => exact frame_refl s1 subject
      | errorT => exact frame_refl s1 subject
      | unknownT => exact frame_refl s1 subject
      | generic => exact frame_refl s1 subject
      | blocked => exact frame_refl s1 subject
      | pendingExpansion => exact frame_refl s1 subject
      | union parts => exact frame_refl s1 subject
      | inter parts => exact frame_refl s1 subject
      | externT => exact frame_refl s1 subject
      | otherT => exact frame_refl s1 subject

/-- Frame: the reducer invocation for a pack subject (any type index works as
the frame subject). -/
theorem frame_stepPackReduce (ctx : SCtx) (s : ReducerState) (psub : TypePackId)
    (args : List TypeId) (packArgs : List TypePackId) (subject : TypeId) :
    Frame s (stepPackReduce ctx s psub args packArgs) subject := by
  unfold stepPackReduce
  exact frame_trans (frame_appendStores s _ _ subject) (frame_handleTFRTp ctx _ psub _ subject)

/-- Frame: guess-then-reduce for a pack subject. -/
theorem frame_stepPackGuessOrReduce (ctx : SCtx) (s : ReducerState) (psub : TypePackId)
    (args : List TypeId) (packArgs : List TypePackId) (subject : TypeId) :
    Frame s (stepPackGuessOrReduce ctx s psub args packArgs) subject := by
  unfold stepPackGuessOrReduce
  by_cases h : (tryGuessingTp ctx s psub).1 = true
  · rw [if_pos h]
    exact frame_tryGuessingTp ctx s psub subject
  · rw [if_neg h]
    exact frame_stepPackReduce ctx s psub args packArgs subject

/-- Frame: the whole pack-step body on a popped subject. -/
theorem frame_stepPackPopped (ctx : SCtx) (s1 : ReducerState) (psub : TypePackId)
    (subject : TypeId) : Frame s1 (stepPackPopped ctx s1 psub) subject := by
  unfold stepPackPopped
  by_cases hmem : psub ∈ s1.irredTps
  · rw [if_pos hmem]
    exact frame_refl s1 subject
  · rw [if_neg hmem]
    cases hg : getPNode s1.pheap psub with
    | none => exact frame_refl s1 subject
    | some nd =>
      cases nd with
      | pfit fd args packArgs =>
        dsimp only
        by_cases hb : ¬(testParamsTp ctx s1 psub fd args packArgs).1 = true
        · rw [if_pos hb]
          exact frame_testParamsTp ctx s1 psub fd args packArgs subject
        · rw [if_neg hb]
          exact frame_stepPackGuessOrReduce ctx s1 psub args packArgs subject
      | boundP t => exact frame_refl s1 subject
      | genericP => exact frame_refl s1 subject
      | listP tys => exact frame_refl s1 subject
      | otherP => exact frame_refl s1 subject

/-- Master step lemma: one scheduler step only grows the irreducible set,
freezes the stored node of every already-irreducible type, can only exhibit a
tri-state on a non-irreducible node if it was already there (or the node is
freshly allocated), and never emits a too-complex diagnostic. -/
theorem stepS_master (ctx : SCtx) (s : ReducerState) :
    (∀ i, i ∈ s.irredTys → i ∈ (stepS ctx s).irredTys) ∧
    (∀ i nd, i ∈ s.irredTys → getNode s.heap i = some nd → getNode (stepS ctx s).heap i = some nd) ∧
    (∀ i v, i ∉ (stepS ctx s).irredTys → stateAt (stepS ctx s).heap i = some v →
      stateAt s.heap i = some v ∨ getNode s.heap i = none) ∧
    countCTC (stepS ctx s).result.errors = countCTC s.result.errors := by
  unfold stepS
  by_cases hq : s.queuedTys ≠ []
  · rw [if_pos hq]
    unfold stepType
    cases hqs : s.queuedTys with
    | nil => exact absurd hqs hq
    | cons t rest =>
      dsimp only
      by_cases hmem : followTy s.heap t ∈ s.irredTys
      · have hpop : stepTypePopped ctx { s with queuedTys := rest } (followTy s.heap t) =
            { s with queuedTys := rest } := by
          unfold stepTypePopped
          rw [if_pos hmem]
        rw [hpop]
        exact ⟨fun _ h => h, fun _ _ _ h => h, fun _ _ _ h => Or.inl h, rfl⟩
      · have hf := frame_stepTypePopped ctx { s with queuedTys := rest } (followTy s.heap t)
        refine ⟨fun i h => hf.irred_mono i h, ?_, fun i v h hst => hf.state_tracked i v h hst, hf.ctc⟩
        intro i nd hi hg
        exact hf.heap_pres i nd (fun he => hmem (he ▸ hi)) hg
  · rw [if_neg hq]
    by_cases hp : s.queuedTps ≠ []
    · rw [if_pos hp]
      unfold stepPack
      cases hps : s.queuedTps with
      | nil => exact absurd hps hp
      | cons p rest =>
        dsimp only
        refine ⟨?_, ?_, ?_, ?_⟩
        · intro i h
          exact (frame_stepPackPopped ctx { s with queuedTps := rest } (followTp s.pheap p) 0).irred_mono i h
        · intro i nd hi hg
          exact (frame_stepPackPopped ctx { s with queuedTps := rest } (followTp s.pheap p) (i + 1)).heap_pres
            i nd (Nat.ne_of_lt (Nat.lt_succ_self i)) hg
        · intro i v h hst
          exact (frame_stepPackPopped ctx { s with queuedTps := rest } (followTp s.pheap p) 0).state_tracked i v h hst
        · exact (frame_stepPackPopped ctx { s with queuedTps := rest } (followTp s.pheap p) 0).ctc
    · rw [if_neg hp]
      exact ⟨fun _ h => h, fun _ _ _ h => h, fun _ _ _ h => Or.inl h, rfl⟩

/-- Once an irreducible type instance carries a tri-state, further scheduler
steps keep both the membership and the exact state. -/
theorem stable_after_irred (ctx : SCtx) :
    ∀ (m : Nat) (s' : ReducerState) (i : TypeId) (v : TFState),
      i ∈ s'.irredTys → stateAt s'.heap i = some v →
      stateAt (stepN ctx m s').heap i = some v ∧ i ∈ (stepN ctx m s').irredTys := by
  intro m
  induction m with
  | zero => intro s' i v hi hst; exact ⟨hst, hi⟩
  | succ m ih =>
    intro s' i v hi hst
    have hnode : ∃ fd args pargs, getNode s'.heap i = some (.tfit fd args pargs v) := by
      unfold stateAt at hst
      cases hgn : getNode s'.heap i with
      | none => rw [hgn] at hst; exact Option.noConfusion hst
      | some nd =>
        rw [hgn] at hst
        cases nd with
        | tfit fd args pargs st0 =>
          refine ⟨fd, args, pargs, ?_⟩
          have hv : st0 = v := Option.some.inj hst
          rw [hv]
        | bound t => exact Option.noConfusion hst
        | prim k => exact Option.noConfusion hst
        | never => exact Option.noConfusion hst
        | anyT => exact Option.noConfusion hst
        | errorT => exact Option.noConfusion hst
        | unknownT => exact Option.noConfusion hst
        | generic => exact Option.noConfusion hst
        | blocked => exact Option.noConfusion hst
        | pendingExpansion => exact Option.noConfusion hst
        | union parts => exact Option.noConfusion hst
        | inter parts => exact Option.noConfusion hst
        | externT => exact Option.noConfusion hst
        | otherT => exact Option.noConfusion hst
    rcases hnode with ⟨fd, args, pargs, hg⟩
    have hm := stepS_master ctx s'
    have hkeep := hm.2.1 i _ hi hg
    have hmem := hm.1 i hi
    have hst' : stateAt (stepS ctx s').heap i = some v := by
      unfold stateAt
      rw [hkeep]
    exact ih (stepS ctx s') i v hmem hst'

/-! ### Collector lemmas -/

/-- Reachability is transitive. -/
theorem reach_trans {heap : Heap} {pheap : PHeap} {x y z : Sum TypeId TypePackId}
    (h1 : Reach heap pheap x y) (h2 : Reach heap pheap y z) : Reach heap pheap x z := by
  induction h1 with
  | refl => exact h2
  | step hc _ ih => exact Reach.step hc (ih h2)

/-- Bound-link resolution stays within the reachable graph. -/
theorem reach_followN (heap : Heap) (pheap : PHeap) (k : Nat) (t : TypeId) :
    Reach heap pheap (.inl t) (.inl (followN heap k t)) := by
  induction k generalizing t with
  | zero => exact Reach.refl _
  | succ k ih =>
    unfold followN
    cases hg : getNode heap t with
    | none => exact Reach.refl _
    | some nd =>
      cases nd with
      | bound u =>
        refine Reach.step ?_ (ih u)
        unfold graphChildren
        dsimp only
        rw [hg]
        exact List.mem_singleton.mpr rfl
      | prim pk => exact Reach.refl _
      | never => exact Reach.refl _
      | anyT => exact Reach.refl _
      | errorT => exact Reach.refl _
      | unknownT => exact Reach.refl _
      | generic => exact Reach.refl _
      | blocked => exact Reach.refl _
      | pendingExpansion => exact Reach.refl _
      | union parts => exact Reach.refl _
      | inter parts => exact Reach.refl _
      | tfit fd args pargs st => exact Reach.refl _
      | externT => exact Reach.refl _
      | otherT => exact Reach.refl _

/-- Bound-link resolution of packs stays within the reachable graph. -/
theorem reach_followPN (heap : Heap) (pheap : PHeap) (k : Nat) (p : TypePackId) :
    Reach heap pheap (.inr p) (.inr (followPN pheap k p)) := by
  induction k generalizing p with
  | zero => exact Reach.refl _
  | succ k ih =>
    unfold followPN
    cases hg : getPNode pheap p with
    | none => exact Reach.refl _
    | some nd =>
      cases nd with
      | boundP q =>
        refine Reach.step ?_ (ih q)
        unfold graphChildren
        dsimp only
        rw [hg]
        exact List.mem_singleton.mpr rfl
      | pfit fd args pargs => exact Reach.refl _
      | genericP => exact Reach.refl _
      | listP tys => exact Reach.refl _
      | otherP => exact Reach.refl _

/-- Invariant of the sequential traversal: any type or pack the run adds to
the collections satisfies the per-item property of some processed item. -/
theorem collectSeq_inv (go : Sum TypeId TypePackId → CollectSt → Except Unit CollectSt)
    (P : Sum TypeId TypePackId → TypeId → Prop) (Q : Sum TypeId TypePackId → TypePackId → Prop)
    (hgo : ∀ c st st', go c st = .ok st' →
      (∀ t, t ∈ st'.tys → t ∈ st.tys ∨ P c t) ∧ (∀ p, p ∈ st'.tps → p ∈ st.tps ∨ Q c p)) :
    ∀ (l : List (Sum TypeId TypePackId)) (st st' : CollectSt),
      collectSeq go l st = .ok st' →
      (∀ t, t ∈ st'.tys → t ∈ st.tys ∨ ∃ c ∈ l, P c t) ∧
      (∀ p, p ∈ st'.tps → p ∈ st.tps ∨ ∃ c ∈ l, Q c p) := by
  intro l
  induction l with
  | nil =>
    intro st st' h
    unfold collectSeq at h
    injection h with h
    subst h
    exact ⟨fun _ ht => Or.inl ht, fun _ hp => Or.inl hp⟩
  | cons c rest ih =>
    intro st st' h
    unfold collectSeq at h
    cases hgo1 : go c st with
    | error e =>
      rw [hgo1] at h
      exact Except.noConfusion h
    | ok st1 =>
      rw [hgo1] at h
      have h1 := hgo c st st1 hgo1
      have h2 := ih st1 st' h
      refine ⟨?_, ?_⟩
      · intro t ht
        rcases h2.1 t ht with ht1 | ⟨c', hc', hP⟩
        · rcases h1.1 t ht1 with ht0 | hP
          · exact Or.inl ht0
          · exact Or.inr ⟨c, List.mem_cons_self c rest, hP⟩
        · exact Or.inr ⟨c', List.mem_cons_of_mem c hc', hP⟩
      · intro p hp
        rcases h2.2 p hp with hp1 | ⟨c', hc', hQ⟩
        · rcases h1.2 p hp1 with hp0 | hQ
          · exact Or.inl hp0
          · exact Or.inr ⟨c, List.mem_cons_self c rest, hQ⟩
        · exact Or.inr ⟨c', List.mem_cons_of_mem c hc', hQ⟩

/-- Invariant of the collector traversal: every type it records is a
reachable function-instance node, and likewise for packs. -/
theorem collectGo_inv (heap : Heap) (pheap : PHeap) (gd : Option Nat) :
    ∀ (fuel : Nat) (x : Sum TypeId TypePackId) (st st' : CollectSt),
      collectGo heap pheap gd fuel x st = .ok st' →
      (∀ t, t ∈ st'.tys → t ∈ st.tys ∨ (Reach heap pheap x (.inl t) ∧ isTFITAt heap t = true)) ∧
      (∀ p, p ∈ st'.tps → p ∈ st.tps ∨ (Reach heap pheap x (.inr p) ∧ isPfitAt pheap p = true)) := by
  intro fuel
  induction fuel with
  | zero =>
    intro x st st' h
    exact Except.noConfusion h
  | succ fuel ih =>
    intro x st st' h
    cases x with
    | inl t0 =>
      unfold collectGo at h
      by_cases hseen : followTy heap t0 ∈ st.seenTys
      · rw [if_pos hseen] at h
        injection h with h
        subst h
        unfold cycleNote
        by_cases hcyc : isTFITAt heap (followTy heap t0) = true ∧
            stackHas st.stack (Sum.inl (followTy heap t0)) = true
        · rw [if_pos hcyc]
          exact ⟨fun _ ht => Or.inl ht, fun _ hp => Or.inl hp⟩
        · rw [if_neg hcyc]
          exact ⟨fun _ ht => Or.inl ht, fun _ hp => Or.inl hp⟩
      · rw [if_neg hseen] at h
        have hreach0 : Reach heap pheap (.inl t0) (.inl (followTy heap t0)) :=
          reach_followN heap pheap heap.length t0
        cases hg : getNode heap (followTy heap t0) with
        | none =>
          rw [hg] at h
          injection h with h
          subst h
          exact ⟨fun _ ht => Or.inl ht, fun _ hp => Or.inl hp⟩
        | some nd =>
          rw [hg] at h
          cases nd with
          | tfit fd args pargs stt =>
            dsimp only at h
            cases hseq : collectSeq (fun c acc => collectGo heap pheap gd fuel c acc)
                (args.map Sum.inl ++ pargs.map Sum.inr)
                (enterTfit gd (markSeenTy st (followTy heap t0)) (followTy heap t0)) with
            | error e =>
              rw [hseq] at h
              exact Except.noConfusion h
            | ok stf =>
              rw [hseq] at h
              injection h with h
              subst h
              have hchild : ∀ c, c ∈ args.map Sum.inl ++ pargs.map Sum.inr →
                  c ∈ graphChildren heap pheap (.inl (followTy heap t0)) := by
                intro c hc
                unfold graphChildren
                dsimp only
                rw [hg]
                exact hc
              have hinv := collectSeq_inv (fun c acc => collectGo heap pheap gd fuel c acc)
                (fun c t' => Reach heap pheap c (.inl t') ∧ isTFITAt heap t' = true)
                (fun c p' => Reach heap pheap c (.inr p') ∧ isPfitAt pheap p' = true)
                (fun c stA stB hAB => ih c stA stB hAB)
                (args.map Sum.inl ++ pargs.map Sum.inr)
                (enterTfit gd (markSeenTy st (followTy heap t0)) (followTy heap t0)) stf hseq
              have htfitT : isTFITAt heap (followTy heap t0) = true := by
                unfold isTFITAt
                rw [hg]
              refine ⟨?_, ?_⟩
              · intro t ht
                rcases hinv.1 t ht with ht1 | ⟨c, hc, hr, htf⟩
                · have ht2 : t ∈ followTy heap t0 :: st.tys := ht1
                  rcases List.mem_cons.mp ht2 with rfl | hmem
                  · exact Or.inr ⟨hreach0, htfitT⟩
                  · exact Or.inl hmem
                · exact Or.inr ⟨reach_trans hreach0 (Reach.step (hchild c hc) hr), htf⟩
              · intro p hp
                rcases hinv.2 p hp with hp1 | ⟨c, hc, hr, hpf⟩
                · exact Or.inl hp1
                · exact Or.inr ⟨reach_trans hreach0 (Reach.step (hchild c hc) hr), hpf⟩
          | union parts =>
            dsimp only at h
            have hchild : ∀ c, c ∈ parts.map Sum.inl →
                c ∈ graphChildren heap pheap (.inl (followTy heap t0)) := by
              intro c hc
              unfold graphChildren
              dsimp only
              rw [hg]
              exact hc
            have hinv := collectSeq_inv (fun c acc => collectGo heap pheap gd fuel c acc)
              (fun c t' => Reach heap pheap c (.inl t') ∧ isTFITAt heap t' = true)
              (fun c p' => Reach heap pheap c (.inr p') ∧ isPfitAt pheap p' = true)
              (fun c stA stB hAB => ih c stA stB hAB)
              (parts.map Sum.inl) (markSeenTy st (followTy heap t0)) st' h
            refine ⟨?_, ?_⟩
            · intro t ht
              rcases hinv.1 t ht with ht1 | ⟨c, hc, hr, htf⟩
              · exact Or.inl ht1
              · exact Or.inr ⟨reach_trans hreach0 (Reach.step (hchild c hc) hr), htf⟩
            · intro p hp
              rcases hinv.2 p hp with hp1 | ⟨c, hc, hr, hpf⟩
              · exact Or.inl hp1
              · exact Or.inr ⟨reach_trans hreach0 (Reach.step (hchild c hc) hr), hpf⟩
          | inter parts =>
            dsimp only at h
            have hchild : ∀ c, c ∈ parts.map Sum.inl →
                c ∈ graphChildren heap pheap (.inl (followTy heap t0)) := by
              intro c hc
              unfold graphChildren
              dsimp only
              rw [hg]
              exact hc
            have hinv := collectSeq_inv (fun c acc => collectGo heap pheap gd fuel c acc)
              (fun c t' => Reach heap pheap c (.inl t') ∧ isTFITAt heap t' = true)
              (fun c p' => Reach heap pheap c (.inr p') ∧ isPfitAt pheap p' = true)
              (fun c stA stB hAB => ih c stA stB hAB)
              (parts.map Sum.inl) (markSeenTy st (followTy heap t0)) st' h
            refine ⟨?_, ?_⟩
            · intro t ht
              rcases hinv.1 t ht with ht1 | ⟨c, hc, hr, htf⟩
              · exact Or.inl ht1
              · exact Or.inr ⟨reach_trans hreach0 (Reach.step (hchild c hc) hr), htf⟩
            · intro p hp
              rcases hinv.2 p hp with hp1 | ⟨c, hc, hr, hpf⟩
              · exact Or.inl hp1
              · exact Or.inr ⟨reach_trans hreach0 (Reach.step (hchild c hc) hr), hpf⟩
          | bound u =>
            dsimp only at h
            have hchild : (Sum.inl u : Sum TypeId TypePackId) ∈
                graphChildren heap pheap (.inl (followTy heap t0)) := by
              unfold graphChildren
              dsimp only
              rw [hg]
              exact List.mem_singleton.mpr rfl
            have hinv := ih (.inl u) (markSeenTy st (followTy heap t0)) st' h
            refine ⟨?_, ?_⟩
            · intro t ht
              rcases hinv.1 t ht with ht1 | ⟨hr, htf⟩
              · exact Or.inl ht1
              · exact Or.inr ⟨reach_trans hreach0 (Reach.step hchild hr), htf⟩
            · intro p hp
              rcases hinv.2 p hp with hp1 | ⟨hr, hpf⟩
              · exact Or.inl hp1
              · exact Or.inr ⟨reach_trans hreach0 (Reach.step hchild hr), hpf⟩
          | prim pk =>
            injection h with h
            subst h
            exact ⟨fun _ ht => Or.inl ht, fun _ hp => Or.inl hp⟩
          | never =>
            injection h with h
            subst h
            exact ⟨fun _ ht => Or.inl ht, fun _ hp => Or.inl hp⟩
          | anyT =>
            injection h with h
            subst h
            exact ⟨fun _ ht => Or.inl ht, fun _ hp => Or.inl hp⟩
          | errorT =>
            injection h with h
            subst h
            exact ⟨fun _ ht => Or.inl ht, fun _ hp => Or.inl hp⟩
          | unknownT =>
            injection h with h
            subst h
            exact ⟨fun _ ht => Or.inl ht, fun _ hp => Or.inl hp⟩
          | generic =>
            injection h with h
            subst h
            exact ⟨fun _ ht => Or.inl ht, fun _ hp => Or.inl hp⟩
          | blocked =>
            injection h with h
            subst h
            exact ⟨fun _ ht => Or.inl ht, fun _ hp => Or.inl hp⟩
          | pendingExpansion =>
            injection h with h
            subst h
            exact ⟨fun _ ht => Or.inl ht, fun _ hp => Or.inl hp⟩
          | externT =>
            injection h with h
            subst h
            exact ⟨fun _ ht => Or.inl ht, fun _ hp => Or.inl hp⟩
          | otherT =>
            injection h with h
            subst h
            exact ⟨fun _ ht => Or.inl ht, fun _ hp => Or.inl hp⟩
    | inr p0 =>
      unfold collectGo at h
      by_cases hseen : followTp pheap p0 ∈ st.seenTps
      · rw [if_pos hseen] at h
        injection h with h
        subst h
        exact ⟨fun _ ht => Or.inl ht, fun _ hp => Or.inl hp⟩
      · rw [if_neg hseen] at h
        have hreach0 : Reach heap pheap (.inr p0) (.inr (followTp pheap p0)) :=
          reach_followPN heap pheap pheap.length p0
        cases hg : getPNode pheap (followTp pheap p0) with
        | none =>
          rw [hg] at h
          injection h with h
          subst h
          exact ⟨fun _ ht => Or.inl ht, fun _ hp => Or.inl hp⟩
        | some nd =>
          rw [hg] at h
          cases nd with
          | pfit fd args pargs =>
            dsimp only at h
            cases hseq : collectSeq (fun c acc => collectGo heap pheap gd fuel c acc)
                (args.map Sum.inl ++ pargs.map Sum.inr)
                (enterPfit gd (markSeenTp st (followTp pheap p0)) (followTp pheap p0)) with
            | error e =>
              rw [hseq] at h
              exact Except.noConfusion h
            | ok stf =>
              rw [hseq] at h
              injection h with h
              subst h
              have hchild : ∀ c, c ∈ args.map Sum.inl ++ pargs.map Sum.inr →
                  c ∈ graphChildren heap pheap (.inr (followTp pheap p0)) := by
                intro c hc
                unfold graphChildren
                dsimp only
                rw [hg]
                exact hc
              have hinv := collectSeq_inv (fun c acc => collectGo heap pheap gd fuel c acc)
                (fun c t' => Reach heap pheap c (.inl t') ∧ isTFITAt heap t' = true)
                (fun c p' => Reach heap pheap c (.inr p') ∧ isPfitAt pheap p' = true)
                (fun c stA stB hAB => ih c stA stB hAB)
                (args.map Sum.inl ++ pargs.map Sum.inr)
                (enterPfit gd (markSeenTp st (followTp pheap p0)) (followTp pheap p0)) stf hseq
              have hpfitP : isPfitAt pheap (followTp pheap p0) = true := by
                unfold isPfitAt
                rw [hg]
              refine ⟨?_, ?_⟩
              · intro t ht
                rcases hinv.1 t ht with ht1 | ⟨c, hc, hr, htf⟩
                · exact Or.inl ht1
                · exact Or.inr ⟨reach_trans hreach0 (Reach.step (hchild c hc) hr), htf⟩
              · intro p hp
                rcases hinv.2 p hp with hp1 | ⟨c, hc, hr, hpf⟩
                · have hp2 : p ∈ followTp pheap p0 :: st.tps := hp1
                  rcases List.mem_cons.mp hp2 with rfl | hmem
                  · exact Or.inr ⟨hreach0, hpfitP⟩
                  · exact Or.inl hmem
                · exact Or.inr ⟨reach_trans hreach0 (Reach.step (hchild c hc) hr), hpf⟩
          | listP tys =>
            dsimp only at h
            have hchild : ∀ c, c ∈ tys.map Sum.inl →
                c ∈ graphChildren heap pheap (.inr (followTp pheap p0)) := by
              intro c hc
              unfold graphChildren
              dsimp only
              rw [hg]
              exact hc
            have hinv := collectSeq_inv (fun c acc => collectGo heap pheap gd fuel c acc)
              (fun c t' => Reach heap pheap c (.inl t') ∧ isTFITAt heap t' = true)
              (fun c p' => Reach heap pheap c (.inr p') ∧ isPfitAt pheap p' = true)
              (fun c stA stB hAB => ih c stA stB hAB)
              (tys.map Sum.inl) (markSeenTp st (followTp pheap p0)) st' h
            refine ⟨?_, ?_⟩
            · intro t ht
              rcases hinv.1 t ht with ht1 | ⟨c, hc, hr, htf⟩
              · exact Or.inl ht1
              · exact Or.inr ⟨reach_trans hreach0 (Reach.step (hchild c hc) hr), htf⟩
            · intro p hp
              rcases hinv.2 p hp with hp1 | ⟨c, hc, hr, hpf⟩
              · exact Or.inl hp1
              · exact Or.inr ⟨reach_trans hreach0 (Reach.step (hchild c hc) hr), hpf⟩
          | boundP q =>
            dsimp only at h
            have hchild : (Sum.inr q : Sum TypeId TypePackId) ∈
                graphChildren heap pheap (.inr (followTp pheap p0)) := by
              unfold graphChildren
              dsimp only
              rw [hg]
              exact List.mem_singleton.mpr rfl
            have hinv := ih (.inr q) (markSeenTp st (followTp pheap p0)) st' h
            refine ⟨?_, ?_⟩
            · intro t ht
              rcases hinv.1 t ht with ht1 | ⟨hr, htf⟩
              · exact Or.inl ht1
              · exact Or.inr ⟨reach_trans hreach0 (Reach.step hchild hr), htf⟩
            · intro p hp
              rcases hinv.2 p hp with hp1 | ⟨hr, hpf⟩
              · exact Or.inl hp1
              · exact Or.inr ⟨reach_trans hreach0 (Reach.step hchild hr), hpf⟩
          | genericP =>
            injection h with h
            subst h
            exact ⟨fun _ ht => Or.inl ht, fun _ hp => Or.inl hp⟩
          | otherP =>
            injection h with h
            subst h
            exact ⟨fun _ ht => Or.inl ht, fun _ hp => Or.inl hp⟩

/-! ## Claim theorems -/

/-- C1: for every type-function application whose arguments include union
types, if the cartesian product of the sizes of the union arguments exceeds
the configured product-size limit, union distribution returns an erroneous
reduction (`Reduction::Erroneous` with no result and no blocked nodes), and
leaves the heap untouched. -/
theorem c1_distribution_overflow_erroneous
    (f : TypeId → List TypeId → List TypePackId → Heap → RR TypeId × Heap)
    (instance_ : TypeId) (typeParams : List TypeId) (packParams : List TypePackId)
    (heap : Heap) (limit arenaId : Nat)
    (hunion : hasUnionArg heap typeParams = true)
    (hover : limit < unionSizesProd heap typeParams) :
    tryDistributeTypeFunctionApp f instance_ typeParams packParams heap limit arenaId =
      (some { result := none, reductionStatus := .Erroneous, blockedTypes := [], blockedPacks := [] },
       heap) := by
  have hex : ∃ a ∈ typeParams, (unionParts heap (followTy heap a)).isSome := by
    rcases List.any_eq_true.mp hunion with ⟨a, ha, hs⟩
    exact ⟨a, ha, hs⟩
  have hscan : scanUnions heap limit typeParams 0 1 none = .tooBig := by
    apply scanUnions_tooBig heap limit typeParams 0 1 none hex
    simpa using Nat.le_of_lt hover
  unfold tryDistributeTypeFunctionApp
  rw [hscan]

/-- Witness for C1 at a concrete input: distributing over a two-option union
with the limit set to 1 is erroneous. -/
theorem c1_witness :
    hasUnionArg c1Heap [2] = true ∧ 1 < unionSizesProd c1Heap [2] ∧
    tryDistributeTypeFunctionApp c1F 9 [2] [] c1Heap 1 1 =
      (some { result := none, reductionStatus := .Erroneous, blockedTypes := [], blockedPacks := [] },
       c1Heap) :=
  ⟨by decide, by decide,
   c1_distribution_overflow_erroneous c1F 9 [2] [] c1Heap 1 1 (by decide) (by decide)⟩

/-- C2: for each binary arithmetic type function (add, sub, mul, div, idiv,
pow, mod), if either followed operand argument is the instance node itself,
the reducer returns the bottom (`never`) type as a successful (`MaybeOk`)
reduction, not an error. -/
theorem c2_binop_self_reference_never (ctx : BCtx) (fuel : Nat) (heap : Heap)
    (instance_ a b : TypeId)
    (h : followTy heap a = instance_ ∨ followTy heap b = instance_) :
    (addTypeFunctionN ctx fuel instance_ [a, b] [] heap =
      (.res { result := some ctx.builtins.neverTy, reductionStatus := .MaybeOk,
              blockedTypes := [], blockedPacks := [] }, heap)) ∧
    (subTypeFunctionN ctx fuel instance_ [a, b] [] heap =
      (.res { result := some ctx.builtins.neverTy, reductionStatus := .MaybeOk,
              blockedTypes := [], blockedPacks := [] }, heap)) ∧
    (mulTypeFunctionN ctx fuel instance_ [a, b] [] heap =
      (.res { result := some ctx.builtins.neverTy, reductionStatus := .MaybeOk,
              blockedTypes := [], blockedPacks := [] }, heap)) ∧
    (divTypeFunctionN ctx fuel instance_ [a, b] [] heap =
      (.res { result := some ctx.builtins.neverTy, reductionStatus := .MaybeOk,
              blockedTypes := [], blockedPacks := [] }, heap)) ∧
    (idivTypeFunctionN ctx fuel instance_ [a, b] [] heap =
      (.res { result := some ctx.builtins.neverTy, reductionStatus := .MaybeOk,
              blockedTypes := [], blockedPacks := [] }, heap)) ∧
    (powTypeFunctionN ctx fuel instance_ [a, b] [] heap =
      (.res { result := some ctx.builtins.neverTy, reductionStatus := .MaybeOk,
              blockedTypes := [], blockedPacks := [] }, heap)) ∧
    (modTypeFunctionN ctx fuel instance_ [a, b] [] heap =
      (.res { result := some ctx.builtins.neverTy, reductionStatus := .MaybeOk,
              blockedTypes := [], blockedPacks := [] }, heap)) := by
  have harity : ¬(([a, b] : List TypeId).length ≠ 2 ∨ ([] : List TypePackId) ≠ []) := by simp
  refine ⟨?_, ?_, ?_, ?_, ?_, ?_, ?_⟩ <;>
    first
      | (unfold addTypeFunctionN; rw [if_neg harity];
         exact numericBinopN_self_reference ctx fuel "__add" heap instance_ a b h)
      | (unfold subTypeFunctionN; rw [if_neg harity];
         exact numericBinopN_self_reference ctx fuel "__sub" heap instance_ a b h)
      | (unfold mulTypeFunctionN; rw [if_neg harity];
         exact numericBinopN_self_reference ctx fuel "__mul" heap instance_ a b h)
      | (unfold divTypeFunctionN; rw [if_neg harity];
         exact numericBinopN_self_reference ctx fuel "__div" heap instance_ a b h)
      | (unfold idivTypeFunctionN; rw [if_neg harity];
         exact numericBinopN_self_reference ctx fuel "__idiv" heap instance_ a b h)
      | (unfold powTypeFunctionN; rw [if_neg harity];
         exact numericBinopN_self_reference ctx fuel "__pow" heap instance_ a b h)
      | (unfold modTypeFunctionN; rw [if_neg harity];
         exact numericBinopN_self_reference ctx fuel "__mod" heap instance_ a b h)

/-- Witness for C2: `add<T, T>` (and the six sibling operators) where `T` is
the instance node itself reduces to `never`. -/
theorem c2_witness :
    followTy c2Heap 0 = 0 ∧
    addTypeFunctionN c10Ctx 3 0 [0, 0] [] c2Heap =
      (.res { result := some c10Ctx.builtins.neverTy, reductionStatus := .MaybeOk,
              blockedTypes := [], blockedPacks := [] }, c2Heap) :=
  ⟨by decide,
   (c2_binop_self_reference_never c10Ctx 3 c2Heap 0 0 0 (Or.inl (by decide))).1⟩

/-- C3 counterexample: with a well-formed user-defined function whose
definition has parse errors, the reducer short-circuits to the builtin
error type, which is distinct from the `any` type — so the claim's
"any-typed result" is false as stated. -/
theorem c3_counterexample :
    userDefinedTypeFunction c3Ufd [] c3Ctx =
      .res { result := some c3Ctx.builtins.errorTy, reductionStatus := .MaybeOk,
             blockedTypes := [], blockedPacks := [] } ∧
    c3Ctx.builtins.errorTy ≠ c3Ctx.builtins.anyTy := by
  constructor
  · decide
  · decide

/-- C3 (amended): if evaluation is globally disabled or the definition has
parse errors (and the internal-consistency guards pass), the reducer
short-circuits to the builtin error-suppressing error type with non-erroneous
status, no error, and no blocked nodes. -/
theorem c3_amended_error_type_shortcircuit (ufd : UserFuncData) (tps : List TypeId) (ctx : UCtx)
    (h1 : ufd.ownerExpired = false) (h2 : ufd.hasName = true) (h3 : ufd.hasDefinition = true)
    (h4 : ctx.allowEvaluation = false ∨ ufd.defHasErrors = true) :
    userDefinedTypeFunction ufd tps ctx =
      .res { result := some ctx.builtins.errorTy, reductionStatus := .MaybeOk,
             blockedTypes := [], blockedPacks := [] } := by
  unfold userDefinedTypeFunction
  rcases h4 with h4 | h4 <;> simp [h1, h2, h3, h4]

/-- Witness for the amended C3 at a concrete input: evaluation disabled. -/
theorem c3_witness :
    c3WUfd.ownerExpired = false ∧ c3WCtx.allowEvaluation = false ∧
    userDefinedTypeFunction c3WUfd [] c3WCtx =
      .res { result := some c3WCtx.builtins.errorTy, reductionStatus := .MaybeOk,
             blockedTypes := [], blockedPacks := [] } :=
  ⟨rfl, rfl, c3_amended_error_type_shortcircuit c3WUfd [] c3WCtx rfl rfl rfl (Or.inl rfl)⟩

/-- C10 counterexample: `not<number | string>` — the argument is neither the
instance nor pending, yet the reducer returns a freshly allocated
union-function instance (node 4), not the boolean primitive, refuting
"always returns the boolean primitive type, for any argument type". -/
theorem c10_counterexample :
    followTy c10Heap 2 ≠ 3 ∧
    isPending c10Heap c10Ctx.solverPending (followTy c10Heap 2) = false ∧
    notTypeFunctionN c10Ctx 5 3 [2] [] c10Heap =
      (.res { result := some 4, reductionStatus := .MaybeOk, blockedTypes := [], blockedPacks := [] },
       c10Heap ++ [⟨1, .tfit unionFuncDescr [c10Ctx.builtins.booleanTy, c10Ctx.builtins.booleanTy] [] .Unsolved⟩]) ∧
    (4 : TypeId) ≠ c10Ctx.builtins.booleanTy := by
  refine ⟨by decide, by decide, by decide, by decide⟩

/-- C10 (amended): for the `not` type function — if the followed argument is
the instance itself the reducer returns `never`; if it is pending the reducer
blocks on it; otherwise, if the followed argument is not a union type, the
reducer returns the boolean primitive (a union argument instead yields the
result of union distribution). -/
theorem c10_not_function_cases (ctx : BCtx) (fuel : Nat) (heap : Heap) (instance_ t : TypeId) :
    (followTy heap t = instance_ →
      notTypeFunctionN ctx fuel instance_ [t] [] heap =
        (.res { result := some ctx.builtins.neverTy, reductionStatus := .MaybeOk,
                blockedTypes := [], blockedPacks := [] }, heap)) ∧
    (followTy heap t ≠ instance_ →
      isPending heap ctx.solverPending (followTy heap t) = true →
      notTypeFunctionN ctx fuel instance_ [t] [] heap =
        (.res { result := none, reductionStatus := .MaybeOk,
                blockedTypes := [followTy heap t], blockedPacks := [] }, heap)) ∧
    (followTy heap t ≠ instance_ →
      isPending heap ctx.solverPending (followTy heap t) = false →
      unionParts heap (followTy heap t) = none →
      notTypeFunctionN ctx fuel instance_ [t] [] heap =
        (.res { result := some ctx.builtins.booleanTy, reductionStatus := .MaybeOk,
                blockedTypes := [], blockedPacks := [] }, heap)) := by
  have harity : ¬(([t] : List TypeId).length ≠ 1 ∨ ([] : List TypePackId) ≠ []) := by simp
  refine ⟨?_, ?_, ?_⟩
  · intro hself
    unfold notTypeFunctionN
    rw [if_neg harity]
    simp only [List.headD_cons]
    rw [if_pos hself]
  · intro hns hp
    unfold notTypeFunctionN
    rw [if_neg harity]
    simp only [List.headD_cons]
    rw [if_neg hns, if_pos hp]
  · intro hns hp hnu
    unfold notTypeFunctionN
    rw [if_neg harity]
    simp only [List.headD_cons]
    rw [if_neg hns]
    rw [if_neg (by simp [hp])]
    cases fuel with
    | zero => rfl
    | succ fuel' =>
      have hscan : scanUnions heap ctx.cartesianLimit [t] 0 1 none = .noUnion := by
        simp only [scanUnions, hnu]
      simp only [tryDistributeTypeFunctionApp, hscan]

/-- Witness for the amended C10: concrete instances of the self-reference,
pending and plain branches. -/
theorem c10_witness :
    (notTypeFunctionN c10Ctx 5 2 [2] [] c10Heap =
      (.res { result := some c10Ctx.builtins.neverTy, reductionStatus := .MaybeOk,
              blockedTypes := [], blockedPacks := [] }, c10Heap)) ∧
    (notTypeFunctionN c10Ctx 5 3 [0] [] c10Heap =
      (.res { result := some c10Ctx.builtins.booleanTy, reductionStatus := .MaybeOk,
              blockedTypes := [], blockedPacks := [] }, c10Heap)) :=
  ⟨(c10_not_function_cases c10Ctx 5 c10Heap 2 2).1 (by decide),
   (c10_not_function_cases c10Ctx 5 c10Heap 3 0).2.2 (by decide) (by decide) (by decide)⟩

/-- C4 counterexample: updating the tri-state of a node owned by a foreign
arena leaves the whole reducer state — including the error list — unchanged:
the attempt is silently ignored, not reported as an internal error. -/
theorem c4_counterexample :
    ownerAt c4State.heap 0 ≠ some c4Ctx.arenaId ∧
    setStateTy c4Ctx c4State 0 .Stuck = c4State ∧
    (setStateTy c4Ctx c4State 0 .Stuck).result.errors = [] := by
  refine ⟨by decide, ?_, ?_⟩ <;> rfl

/-- C4 (amended): rebinding a foreign-arena node (type or pack) leaves it
unchanged and records an internal error; updating the tri-state of a
foreign-arena node leaves it unchanged but is silently ignored, with no
diagnostic. -/
theorem c4_foreign_arena_mutation (ctx : SCtx) (s : ReducerState) (tsub repl : TypeId)
    (psub prepl : TypePackId) (st : TFState)
    (ht : ownerAt s.heap tsub ≠ some ctx.arenaId)
    (hp : pOwnerAt s.pheap psub ≠ some ctx.arenaId) :
    replaceTy ctx s tsub repl =
      pushErr s (.internal "Attempting to modify a type function instance from another arena") ∧
    replaceTp ctx s psub prepl =
      pushErr s (.internal "Attempting to modify a type function instance from another arena") ∧
    setStateTy ctx s tsub st = s := by
  refine ⟨?_, ?_, ?_⟩
  · unfold replaceTy
    rw [if_pos ht]
  · unfold replaceTp
    rw [if_pos hp]
  · unfold setStateTy
    rw [if_pos ht]

/-- Witness for the amended C4 at a concrete foreign-arena node. -/
theorem c4_witness :
    ownerAt c4State.heap 0 ≠ some c4Ctx.arenaId ∧
    replaceTy c4Ctx c4State 0 5 =
      pushErr c4State (.internal "Attempting to modify a type function instance from another arena") :=
  ⟨by decide,
   (c4_foreign_arena_mutation c4Ctx c4State 0 5 0 5 .Stuck (by decide) (by decide)).1⟩

/-- C5: within a single reduction run, once a step changes a function
instance's tri-state to a terminal value (`Stuck` or `Solved`), no later step
of the same run changes it to a different value. -/
theorem c5_terminal_tristate_stable (ctx : SCtx) (s : ReducerState) (i : TypeId)
    (w v : TFState) (n : Nat)
    (hterm : v = TFState.Stuck ∨ v = TFState.Solved)
    (hbefore : stateAt s.heap i = some w) (hchanged : w ≠ v)
    (hafter : stateAt (stepS ctx s).heap i = some v) :
    stateAt (stepN ctx n (stepS ctx s)).heap i = some v := by
  have hirr : i ∈ (stepS ctx s).irredTys := by
    by_contra hni
    rcases (stepS_master ctx s).2.2.1 i v hni hafter with hsv | hnone
    · rw [hbefore] at hsv
      exact hchanged (Option.some.inj hsv)
    · unfold stateAt at hbefore
      rw [hnone] at hbefore
      exact Option.noConfusion hbefore
  exact (stable_after_irred ctx n (stepS ctx s) i v hirr hafter).1

/-- Witness for C5 at a concrete run: the first step sets instance 0's state
from `Unsolved` to `Stuck` (its dependency is stuck), and two further steps
leave it `Stuck`. -/
theorem c5_witness :
    stateAt c5State.heap 0 = some .Unsolved ∧
    stateAt (stepS c5Ctx c5State).heap 0 = some .Stuck ∧
    stateAt (stepN c5Ctx 2 (stepS c5Ctx c5State)).heap 0 = some .Stuck :=
  ⟨by decide, by decide,
   c5_terminal_tristate_stable c5Ctx c5State 0 .Unsolved .Stuck 2 (Or.inl rfl)
     (by decide) (by decide) (by decide)⟩

/-- C7 counterexample: with a budget of 2, a run over two mutually deferring
instances executes 3 scheduler steps, so "at most the configured maximum
number of steps" is false as stated (the check runs after each step). -/
theorem c7_counterexample :
    (runLoop c7Ctx 2 c7State).2.1 = 3 ∧ ¬((runLoop c7Ctx 2 c7State).2.1 ≤ 2) := by
  constructor
  · decide
  · decide

/-- C7 (amended): the run loop executes at most one more step than the
configured maximum; when it aborts on the budget it appends exactly one
too-complex diagnostic, and when it does not abort it stops because both
queues are empty. -/
theorem c7_budget_amended (ctx : SCtx) :
    ∀ (maxSteps : Nat) (s : ReducerState),
      (runLoop ctx maxSteps s).2.1 ≤ maxSteps + 1 ∧
      countCTC (runLoop ctx maxSteps s).1.result.errors =
        countCTC s.result.errors + (if (runLoop ctx maxSteps s).2.2 then 1 else 0) ∧
      ((runLoop ctx maxSteps s).2.2 = false → doneS (runLoop ctx maxSteps s).1) := by
  intro maxSteps
  induction maxSteps with
  | zero =>
    intro s
    by_cases hd : doneS s
    · simp [runLoop, hd]
    · simp only [runLoop, hd, if_false, if_neg hd]
      refine ⟨Nat.le_refl 1, ?_, ?_⟩
      · simp only [if_true]
        show countCTC ((stepS ctx s).result.errors ++ [Err.codeTooComplex]) =
          countCTC s.result.errors + 1
        rw [countCTC_append, (stepS_master ctx s).2.2.2]
        simp
      · intro hfalse
        exact Bool.noConfusion hfalse
  | succ m ih =>
    intro s
    by_cases hd : doneS s
    · simp [runLoop, hd]
    · have hs := ih (stepS ctx s)
      simp only [runLoop, hd, if_false, if_neg hd]
      refine ⟨?_, ?_, ?_⟩
      · exact Nat.succ_le_succ hs.1
      · rw [hs.2.1, (stepS_master ctx s).2.2.2]
      · exact hs.2.2

/-- Witness for the amended C7: the deferral run aborts within 3 steps with
one too-complex diagnostic; a run on empty queues stops done and unaborted. -/
theorem c7_witness :
    (runLoop c7Ctx 2 c7State).2.1 ≤ 3 ∧
    countCTC (runLoop c7Ctx 2 c7State).1.result.errors = 1 ∧
    doneS (runLoop c7Ctx 0 c7DoneState).1 := by
  refine ⟨(c7_budget_amended c7Ctx 2 c7State).1, ?_,
          (c7_budget_amended c7Ctx 0 c7DoneState).2.2 (by decide)⟩
  have h := (c7_budget_amended c7Ctx 2 c7State).2.1
  rw [show (runLoop c7Ctx 2 c7State).2.2 = true by decide] at h
  simpa [c7State] using h

/-- C8: a reduction request made while another run is already active (the
re-entrancy flag is set) returns an empty result immediately, with the stores
untouched and zero scheduler steps executed. -/
theorem c8_reentrancy_empty (ctx : SCtx) (s0 : ReducerState) (maxSteps : Nat) :
    reduceFunctionsInternal ctx s0 true maxSteps = (emptyFGR, s0.heap, s0.pheap, 0, false) := by
  rfl

/-- C6: for every entry node whose reachable graph contains no
function-instance node (type or pack), a reduction run returns the empty
result record and leaves both stores unmutated. -/
theorem c6_no_instances_empty_run (ctx : SCtx) (heap : Heap) (pheap : PHeap) (entry : TypeId)
    (recLimit : Nat) (gd : Option Nat) (maxSteps : Nat) (reentrant force : Bool)
    (hty : ∀ t, Reach heap pheap (.inl entry) (.inl t) → isTFITAt heap t = false)
    (htp : ∀ p, Reach heap pheap (.inl entry) (.inr p) → isPfitAt pheap p = false) :
    reduceTypeFunctions ctx heap pheap entry recLimit gd maxSteps reentrant force =
      (emptyFGR, heap, pheap) := by
  unfold reduceTypeFunctions
  cases hc : collectGo heap pheap gd recLimit (.inl entry) emptyCollectSt with
  | error e => rfl
  | ok st =>
    have hinv := collectGo_inv heap pheap gd recLimit (.inl entry) emptyCollectSt st hc
    have htys : st.tys = [] := by
      cases hts : st.tys with
      | nil => rfl
      | cons a l =>
        exfalso
        rcases hinv.1 a (by rw [hts]; exact List.mem_cons_self a l) with hmem | ⟨hr, htf⟩
        · exact List.not_mem_nil a hmem
        · rw [hty a hr] at htf
          exact Bool.noConfusion htf
    have htps : st.tps = [] := by
      cases hts : st.tps with
      | nil => rfl
      | cons a l =>
        exfalso
        rcases hinv.2 a (by rw [hts]; exact List.mem_cons_self a l) with hmem | ⟨hr, hpf⟩
        · exact List.not_mem_nil a hmem
        · rw [htp a hr] at hpf
          exact Bool.noConfusion hpf
    dsimp only
    rw [if_pos ⟨htys, htps⟩]

/-- The C6 witness heap contains no type function instance at all. -/
theorem c6Heap_no_tfit : ∀ t, isTFITAt c6Heap t = false := by
  intro t
  match t with
  | 0 => rfl
  | 1 => rfl
  | 2 => rfl
  | n + 3 => rfl

/-- Witness for C6: a union of two primitives reduces to the empty result
with both stores unchanged. -/
theorem c6_witness :
    reduceTypeFunctions c6Ctx c6Heap [] 0 5 none 10 false false = (emptyFGR, c6Heap, []) :=
  c6_no_instances_empty_run c6Ctx c6Heap [] 0 5 none 10 false false
    (fun t _ => c6Heap_no_tfit t) (fun _ _ => rfl)

/-- C9: when the collector's traversal exceeds the recursion-depth limit, the
whole reduction run returns the empty result record — nothing reducible, no
error recorded, stores unmutated. -/
theorem c9_recursion_limit_empty_run (ctx : SCtx) (heap : Heap) (pheap : PHeap) (entry : TypeId)
    (recLimit : Nat) (gd : Option Nat) (maxSteps : Nat) (reentrant force : Bool)
    (h : collectGo heap pheap gd recLimit (.inl entry) emptyCollectSt = .error ()) :
    reduceTypeFunctions ctx heap pheap entry recLimit gd maxSteps reentrant force =
      (emptyFGR, heap, pheap) := by
  unfold reduceTypeFunctions
  rw [h]

/-- Witness for C9: a three-deep union nesting with recursion limit 2 trips
the depth ceiling and yields the empty result. -/
theorem c9_witness :
    collectGo c9Heap [] none 2 (.inl 0) emptyCollectSt = .error () ∧
    reduceTypeFunctions c9Ctx c9Heap [] 0 2 none 10 false false = (emptyFGR, c9Heap, []) :=
  ⟨rfl, c9_recursion_limit_empty_run c9Ctx c9Heap [] 0 2 none 10 false false rfl⟩

end LuauTF
